import Mathlib

/-!
Verification development for the CdrWriter component of the cdr repository
(src/src/CdrWriter.ts).

The writer state is embedded shallowly:
- the ArrayBuffer content is a total function `buf : Nat -> Nat` giving the byte
  at each index (meaningful below `capacity`; a fresh ArrayBuffer is
  zero-filled, so indices at or above the current capacity are modelled as the
  value a future resize would give them, namely 0);
- `capacity` is the byteLength of the backing buffer;
- `offset`, `origin` and the flags mirror the private fields of the class.

DataView setters store two's-complement bytes, i.e. the value reduced modulo
2^(8*width); `toUnsigned` performs that reduction.  Floating point values enter
the model as their IEEE-754 bit patterns (setFloat64 stores exactly the
binary64 bit pattern of its argument; 1.0 has pattern 0x3FF0000000000000), so
`float64` takes the 64-bit pattern as a natural number.  All byte writes in the
source happen after `#resizeIfNeeded` guaranteed room, so `storeBytes` does not
need to model the DataView out-of-bounds exception for the in-class writes.
-/

set_option maxRecDepth 100000

/-- Overwrite `bytes.length` bytes of `f` starting at `pos` (the effect of a
DataView setter or a `Uint8Array.set` call on the modelled buffer). -/
def storeBytes (f : Nat → Nat) (pos : Nat) (bytes : List Nat) : Nat → Nat :=
  fun i => if pos ≤ i ∧ i - pos < bytes.length then bytes.getD (i - pos) 0 else f i

/-- The `width` little-endian bytes of `v` (low byte first); extracting bytes
reduces `v` modulo 2^(8*width), exactly as the DataView setters do. -/
def toBytesLE : Nat → Nat → List Nat
  | 0, _ => []
  | n + 1, v => v % 256 :: toBytesLE n (v / 256)

/-- Byte sequence stored for an unsigned `width`-byte value: little-endian
order when `le`, big-endian otherwise. -/
def encodeUInt (width v : Nat) (le : Bool) : List Nat :=
  if le then toBytesLE width v else (toBytesLE width v).reverse

/-- Two's-complement reduction of an integer to `width` bytes, as performed by
the JavaScript ToInt / ToUint conversions inside the DataView setters. -/
def toUnsigned (width : Nat) (v : Int) : Nat :=
  (v % ((2 ^ (8 * width) : Nat) : Int)).toNat

/-- ToInt32 of a natural number (used by the JavaScript `>>` operator). -/
def toInt32 (n : Nat) : Int :=
  if n % 2 ^ 32 < 2 ^ 31 then ((n % 2 ^ 32 : Nat) : Int)
  else ((n % 2 ^ 32 : Nat) : Int) - 2 ^ 32

/-- The JavaScript expression `n >> k`: ToInt32 followed by an arithmetic
shift, i.e. floor division by 2^k. -/
def jsShr (n : Nat) (k : Nat) : Int :=
  Int.fdiv (toInt32 n) (2 ^ k)

/-- UTF-8 encoding of one Unicode scalar value. -/
def utf8EncodeChar (c : Nat) : List Nat :=
  if c < 0x80 then [c]
  else if c < 0x800 then [0xC0 + c / 64, 0x80 + c % 64]
  else if c < 0x10000 then [0xE0 + c / 4096, 0x80 + c / 64 % 64, 0x80 + c % 64]
  else [0xF0 + c / 262144, 0x80 + c / 4096 % 64, 0x80 + c / 64 % 64, 0x80 + c % 64]

/-- Number of UTF-16 code units of a string given as Unicode scalar values;
this is the JavaScript `String.length` used by the source as `strlen`. -/
def utf16Length (cps : List Nat) : Nat :=
  (cps.map fun c => if 0x10000 ≤ c then 2 else 1).sum

/-- `TextEncoder.encodeInto` into a window of `room` bytes: encodes the longest
prefix of whole characters whose UTF-8 encodings fit, and stops at the first
character that does not fit. -/
def encodeIntoBytes : List Nat → Nat → List Nat
  | [], _ => []
  | c :: cs, room =>
    let e := utf8EncodeChar c
    if e.length ≤ room then e ++ encodeIntoBytes cs (room - e.length) else []

/-- Modelled from the spec: the encapsulation kinds of src/src/EncapsulationKind.ts
(not under src/), following the table in the spec, section 6. -/
inductive EncapsulationKind where
  | CDR_BE | CDR_LE | PL_CDR_BE | PL_CDR_LE
  | CDR2_BE | CDR2_LE | PL_CDR2_BE | PL_CDR2_LE
  | D_CDR2_BE | D_CDR2_LE
deriving DecidableEq

/-- Modelled from the spec: the one-byte value of each encapsulation kind
(spec section 6 table). -/
def kindValue : EncapsulationKind → Nat
  | .CDR_BE => 0x00
  | .CDR_LE => 0x01
  | .PL_CDR_BE => 0x02
  | .PL_CDR_LE => 0x03
  | .CDR2_BE => 0x10
  | .CDR2_LE => 0x11
  | .PL_CDR2_BE => 0x12
  | .PL_CDR2_LE => 0x13
  | .D_CDR2_BE => 0x14
  | .D_CDR2_LE => 0x15

/-- Modelled from the spec: the littleEndian flag of
src/src/getEncapsulationKindInfo.ts (not under src/), per the spec section 6
table (odd kind values are little-endian). -/
def kindLittleEndian : EncapsulationKind → Bool
  | .CDR_LE | .PL_CDR_LE | .CDR2_LE | .PL_CDR2_LE | .D_CDR2_LE => true
  | _ => false

/-- Modelled from the spec: the isCDR2 flag of
src/src/getEncapsulationKindInfo.ts (not under src/), per the spec section 6
table (values 0x10 and above are XCDR2). -/
def kindIsCDR2 : EncapsulationKind → Bool
  | .CDR2_BE | .CDR2_LE | .PL_CDR2_BE | .PL_CDR2_LE | .D_CDR2_BE | .D_CDR2_LE => true
  | _ => false

/-- Modelled from the spec: `EXTENDED_PID = 0x3F01` from src/src/reservedPIDs.ts
(not under src/), spec section 4.5. -/
def EXTENDED_PID : Nat := 0x3F01

/-- Modelled from the spec: `SENTINEL_PID = 0x3F02` from src/src/reservedPIDs.ts
(not under src/), spec section 4.5. -/
def SENTINEL_PID : Nat := 0x3F02

/-- Modelled from the spec: `getLengthCodeForObjectSize` from
src/src/lengthCodes.ts (not under src/): picks 0 for size 1, 1 for 2, 2 for 4,
3 for 8, otherwise 4 (spec section 4.2). -/
def getLengthCodeForObjectSize (objectSize : Nat) : Nat :=
  if objectSize = 1 then 0
  else if objectSize = 2 then 1
  else if objectSize = 4 then 2
  else if objectSize = 8 then 3
  else 4

/-- Modelled from the spec: `lengthCodeToObjectSizes` from
src/src/lengthCodes.ts (not under src/): the fixed object sizes of length
codes 0-3 (spec section 4.2). -/
def lengthCodeToObjectSizes : Nat → Nat
  | 0 => 1
  | 1 => 2
  | 2 => 4
  | 3 => 8
  | _ => 0

/-- The writer state (the private fields of class CdrWriter). -/
structure CdrWriter where
  buf : Nat → Nat
  capacity : Nat
  offset : Nat
  origin : Nat
  littleEndian : Bool
  hostLittleEndian : Bool
  isCDR2 : Bool

namespace CdrWriter

/-- `CdrWriter.DEFAULT_CAPACITY`. -/
def DEFAULT_CAPACITY : Nat := 16

/-- `CdrWriter.BUFFER_COPY_THRESHOLD`. -/
def BUFFER_COPY_THRESHOLD : Nat := 10

/-- `#eightByteAlignment`: 4 on CDR2, 8 on CDR1. -/
def eightByteAlignment (w : CdrWriter) : Nat :=
  if w.isCDR2 then 4 else 8

/-- The `data` getter: the bytes `[0, offset)` of the buffer. -/
def data (w : CdrWriter) : List Nat :=
  (List.range w.offset).map w.buf

/-- The basic state invariant: origin ≤ offset ≤ capacity. -/
def Valid (w : CdrWriter) : Prop :=
  w.origin ≤ w.offset ∧ w.offset ≤ w.capacity

instance (w : CdrWriter) : Decidable w.Valid := by
  unfold Valid; infer_instance

/-- `#resize`: allocate a zero-filled buffer of the requested capacity and copy
the existing content over (a no-op when the buffer is already big enough). -/
def resize (w : CdrWriter) (capacity : Nat) : CdrWriter :=
  if capacity ≤ w.capacity then w
  else { w with
          capacity := capacity
          buf := fun i => if i < w.capacity then w.buf i else 0 }

/-- `#resizeIfNeeded`: grow to max(2 * capacity, offset + additionalBytes) when
the current capacity is short. -/
def resizeIfNeeded (w : CdrWriter) (additionalBytes : Nat) : CdrWriter :=
  let capacity := w.offset + additionalBytes
  if w.capacity < capacity then
    let doubled := w.capacity * 2
    let newCapacity := if capacity < doubled then doubled else capacity
    w.resize newCapacity
  else w

/-- The number of padding bytes `align` writes: `(offset - origin) % size` and
then `size - alignment` when the remainder is positive.  (Nat subtraction
agrees with the JavaScript computation even when origin exceeds offset, since
a non-positive remainder also yields zero padding there.) -/
def padOf (offset origin size : Nat) : Nat :=
  if (offset - origin) % size > 0 then size - (offset - origin) % size else 0

/-- `align(size, bytesToWrite)`: resize for the padding plus the bytes about to
be written, write zero padding bytes, and advance offset past the padding. -/
def align (w : CdrWriter) (size : Nat) (bytesToWrite : Nat) : CdrWriter :=
  let padding := padOf w.offset w.origin size
  let w1 := w.resizeIfNeeded (padding + bytesToWrite)
  { w1 with
      buf := storeBytes w1.buf w1.offset (List.replicate padding 0)
      offset := w1.offset + padding }

/-- The shape shared by every aligned scalar write in the source:
`align(a, len)` followed by a DataView store of `len` bytes and
`offset += len`. -/
def putChunk (w : CdrWriter) (a len : Nat) (bytes : List Nat) : CdrWriter :=
  let w1 := w.align a len
  { w1 with
      buf := storeBytes w1.buf w1.offset bytes
      offset := w1.offset + len }

/-- `int8` (setInt8 stores the two's-complement byte). -/
def int8 (w : CdrWriter) (value : Int) : CdrWriter :=
  let w1 := w.resizeIfNeeded 1
  { w1 with
      buf := storeBytes w1.buf w1.offset [toUnsigned 1 value]
      offset := w1.offset + 1 }

/-- `uint8`. -/
def uint8 (w : CdrWriter) (value : Int) : CdrWriter :=
  let w1 := w.resizeIfNeeded 1
  { w1 with
      buf := storeBytes w1.buf w1.offset [toUnsigned 1 value]
      offset := w1.offset + 1 }

/-- `int16`: align(2), setInt16 in stream endianness. -/
def int16 (w : CdrWriter) (value : Int) : CdrWriter :=
  w.putChunk 2 2 (encodeUInt 2 (toUnsigned 2 value) w.littleEndian)

/-- `uint16`. -/
def uint16 (w : CdrWriter) (value : Int) : CdrWriter :=
  w.putChunk 2 2 (encodeUInt 2 (toUnsigned 2 value) w.littleEndian)

/-- `int32`. -/
def int32 (w : CdrWriter) (value : Int) : CdrWriter :=
  w.putChunk 4 4 (encodeUInt 4 (toUnsigned 4 value) w.littleEndian)

/-- `uint32`. -/
def uint32 (w : CdrWriter) (value : Int) : CdrWriter :=
  w.putChunk 4 4 (encodeUInt 4 (toUnsigned 4 value) w.littleEndian)

/-- `int64`: align(#eightByteAlignment, 8), setBigInt64. -/
def int64 (w : CdrWriter) (value : Int) : CdrWriter :=
  w.putChunk w.eightByteAlignment 8 (encodeUInt 8 (toUnsigned 8 value) w.littleEndian)

/-- `uint64`. -/
def uint64 (w : CdrWriter) (value : Int) : CdrWriter :=
  w.putChunk w.eightByteAlignment 8 (encodeUInt 8 (toUnsigned 8 value) w.littleEndian)

/-- `uint16BE` (forced big-endian). -/
def uint16BE (w : CdrWriter) (value : Int) : CdrWriter :=
  w.putChunk 2 2 (encodeUInt 2 (toUnsigned 2 value) false)

/-- `uint32BE`. -/
def uint32BE (w : CdrWriter) (value : Int) : CdrWriter :=
  w.putChunk 4 4 (encodeUInt 4 (toUnsigned 4 value) false)

/-- `uint64BE`. -/
def uint64BE (w : CdrWriter) (value : Int) : CdrWriter :=
  w.putChunk w.eightByteAlignment 8 (encodeUInt 8 (toUnsigned 8 value) false)

/-- `float32`, taking the IEEE-754 binary32 bit pattern of the value. -/
def float32 (w : CdrWriter) (bits : Nat) : CdrWriter :=
  w.putChunk 4 4 (encodeUInt 4 bits w.littleEndian)

/-- `float64`: align(#eightByteAlignment, 8); takes the IEEE-754 binary64 bit
pattern of the value (1.0 has pattern 0x3FF0000000000000). -/
def float64 (w : CdrWriter) (bits : Nat) : CdrWriter :=
  w.putChunk w.eightByteAlignment 8 (encodeUInt 8 bits w.littleEndian)

/-- `string(value, writeLength)`: the argument is the list of Unicode scalar
values of the string.  `strlen` is the UTF-16 code-unit count (JavaScript
`value.length`); the uint32 length written is `strlen + 1`; `encodeInto`
writes into a window of `strlen` bytes; a 0 terminator lands at
`offset + strlen`; offset advances by `strlen + 1`. -/
def string (w : CdrWriter) (value : List Nat) (writeLength : Bool) : CdrWriter :=
  let strlen := utf16Length value
  let w1 := if writeLength then w.uint32 ((strlen : Int) + 1) else w
  let w2 := w1.resizeIfNeeded (strlen + 1)
  let w3 := { w2 with buf := storeBytes w2.buf w2.offset (encodeIntoBytes value strlen) }
  let w4 := { w3 with buf := storeBytes w3.buf (w3.offset + strlen) [0] }
  { w4 with offset := w4.offset + strlen + 1 }

/-- `dHeader(objectSize)`: `uint32(objectSize)`. -/
def dHeader (w : CdrWriter) (objectSize : Int) : CdrWriter :=
  w.uint32 objectSize

/-- `sequenceLength(value)`: `uint32(value)`. -/
def sequenceLength (w : CdrWriter) (value : Int) : CdrWriter :=
  w.uint32 value

/-- `#memberHeaderV1`: align(4); short PID when id and objectSize fit, the
Extended PID form otherwise; then `#resetOrigin` sets origin to offset. -/
def memberHeaderV1 (w : CdrWriter) (mustUnderstand : Bool) (id objectSize : Nat) : CdrWriter :=
  let w1 := w.align 4 4
  let mustUnderstandFlag : Nat := if mustUnderstand then 1 <<< 14 else 0
  let shouldUseExtendedPID := decide (0x3f00 < id) || decide (0xffff < objectSize)
  if !shouldUseExtendedPID then
    let w2 := w1.uint16 (((mustUnderstandFlag ||| id : Nat) : Int))
    let w3 := w2.uint16 (((objectSize &&& 0xffff : Nat) : Int))
    { w3 with origin := w3.offset }
  else
    let w2 := w1.uint16 (((mustUnderstandFlag ||| EXTENDED_PID : Nat) : Int))
    let w3 := w2.uint16 8
    let w4 := w3.uint32 ((id : Nat) : Int)
    let w5 := w4.uint32 ((objectSize : Nat) : Int)
    { w5 with origin := w5.offset }

/-- `sentinelHeader`: XCDR1 only, align(4) then uint16(SENTINEL_PID), uint16(0). -/
def sentinelHeader (w : CdrWriter) : CdrWriter :=
  if !w.isCDR2 then (((w.align 4 4).uint16 ((SENTINEL_PID : Nat) : Int)).uint16 0)
  else w

/-- `#memberHeaderV2`.  The source switch with its fall-through groups
(cases 0-3, cases 4-5, case 6, case 7, default) is rendered as the equivalent
chain of conditionals.  An error carries the writer state at the moment the
exception is thrown (the object keeps any mutation already performed). -/
def memberHeaderV2 (w : CdrWriter) (mustUnderstand : Bool) (id objectSize : Nat)
    (lengthCode : Option Nat) : Except (String × CdrWriter) CdrWriter :=
  if 0x0fffffff < id then
    .error ("Member ID " ++ toString id ++ " is too large. Max value is 268435455", w)
  else
    let mustUnderstandFlag : Nat := if mustUnderstand then 1 <<< 31 else 0
    let finalLengthCode : Nat := lengthCode.getD (getLengthCodeForObjectSize objectSize)
    let header : Nat := mustUnderstandFlag ||| (finalLengthCode <<< 28) ||| id
    let w1 := w.uint32 ((header : Nat) : Int)
    if finalLengthCode ≤ 3 then
      let shouldBeSize := lengthCodeToObjectSizes finalLengthCode
      if objectSize ≠ shouldBeSize then
        .error ("Cannot write a length code " ++ toString finalLengthCode ++
          " header with an object size not equal to " ++ toString shouldBeSize, w1)
      else .ok w1
    else if finalLengthCode = 4 ∨ finalLengthCode = 5 then
      .ok (w1.uint32 ((objectSize : Nat) : Int))
    else if finalLengthCode = 6 then
      if objectSize % 4 ≠ 0 then
        .error ("Cannot write a length code 6 header with an object size that is not a multiple of 4", w1)
      else .ok (w1.uint32 (jsShr objectSize 2))
    else if finalLengthCode = 7 then
      if objectSize % 8 ≠ 0 then
        .error ("Cannot write a length code 7 header with an object size that is not a multiple of 8", w1)
      else .ok (w1.uint32 (jsShr objectSize 3))
    else .error ("Unexpected length code " ++ toString finalLengthCode, w1)

/-- `emHeader`: dispatch on the encapsulation version. -/
def emHeader (w : CdrWriter) (mustUnderstand : Bool) (id objectSize : Nat)
    (lengthCode : Option Nat) : Except (String × CdrWriter) CdrWriter :=
  if w.isCDR2 then w.memberHeaderV2 mustUnderstand id objectSize lengthCode
  else .ok (w.memberHeaderV1 mustUnderstand id objectSize)

/-- `int8Array`: optional length prefix, then a single-byte copy of the
elements. -/
def int8Array (w : CdrWriter) (value : List Int) (writeLength : Bool) : CdrWriter :=
  let w1 := if writeLength then w.sequenceLength ((value.length : Nat) : Int) else w
  let w2 := w1.resizeIfNeeded value.length
  { w2 with
      buf := storeBytes w2.buf w2.offset (value.map (toUnsigned 1))
      offset := w2.offset + value.length }

/-- `uint8Array`. -/
def uint8Array (w : CdrWriter) (value : List Int) (writeLength : Bool) : CdrWriter :=
  let w1 := if writeLength then w.sequenceLength ((value.length : Nat) : Int) else w
  let w2 := w1.resizeIfNeeded value.length
  { w2 with
      buf := storeBytes w2.buf w2.offset (value.map (toUnsigned 1))
      offset := w2.offset + value.length }

/-- The generic fast bulk-copy path: `align(width, value.byteLength)` followed
by a single byte copy of the raw bytes of the typed view (`chunks.length * len`
is `value.byteLength`).  Under the fast-path guard the host byte order equals
the stream byte order, so the raw host-order bytes of the view are exactly the
stream-endian encodings of its elements, which is how `chunks` is built at the
call sites. -/
def fastStore (w : CdrWriter) (len : Nat) (chunks : List (List Nat)) : CdrWriter :=
  let w1 := w.align len (chunks.length * len)
  { w1 with
      buf := storeBytes w1.buf w1.offset chunks.flatten
      offset := w1.offset + chunks.length * len }

/-- Fast path of `int16Array`. -/
def int16ArrayFast (w : CdrWriter) (value : List Int) : CdrWriter :=
  w.fastStore 2 (value.map fun v => encodeUInt 2 (toUnsigned 2 v) w.littleEndian)

/-- `int16Array(value, writeLength)`: `isTypedView` models
`value instanceof Int16Array`. -/
def int16Array (w : CdrWriter) (value : List Int)
    (isTypedView writeLength : Bool) : CdrWriter :=
  let w1 := if writeLength then w.sequenceLength ((value.length : Nat) : Int) else w
  if isTypedView && (w1.littleEndian == w1.hostLittleEndian)
      && decide (BUFFER_COPY_THRESHOLD ≤ value.length) then
    w1.int16ArrayFast value
  else
    value.foldl int16 w1

/-- Fast path of `uint16Array`. -/
def uint16ArrayFast (w : CdrWriter) (value : List Int) : CdrWriter :=
  w.fastStore 2 (value.map fun v => encodeUInt 2 (toUnsigned 2 v) w.littleEndian)

/-- `uint16Array`. -/
def uint16Array (w : CdrWriter) (value : List Int)
    (isTypedView writeLength : Bool) : CdrWriter :=
  let w1 := if writeLength then w.sequenceLength ((value.length : Nat) : Int) else w
  if isTypedView && (w1.littleEndian == w1.hostLittleEndian)
      && decide (BUFFER_COPY_THRESHOLD ≤ value.length) then
    w1.uint16ArrayFast value
  else
    value.foldl uint16 w1

/-- Fast path of `int32Array`. -/
def int32ArrayFast (w : CdrWriter) (value : List Int) : CdrWriter :=
  w.fastStore 4 (value.map fun v => encodeUInt 4 (toUnsigned 4 v) w.littleEndian)

/-- `int32Array`. -/
def int32Array (w : CdrWriter) (value : List Int)
    (isTypedView writeLength : Bool) : CdrWriter :=
  let w1 := if writeLength then w.sequenceLength ((value.length : Nat) : Int) else w
  if isTypedView && (w1.littleEndian == w1.hostLittleEndian)
      && decide (BUFFER_COPY_THRESHOLD ≤ value.length) then
    w1.int32ArrayFast value
  else
    value.foldl int32 w1

/-- Fast path of `uint32Array`. -/
def uint32ArrayFast (w : CdrWriter) (value : List Int) : CdrWriter :=
  w.fastStore 4 (value.map fun v => encodeUInt 4 (toUnsigned 4 v) w.littleEndian)

/-- `uint32Array`. -/
def uint32Array (w : CdrWriter) (value : List Int)
    (isTypedView writeLength : Bool) : CdrWriter :=
  let w1 := if writeLength then w.sequenceLength ((value.length : Nat) : Int) else w
  if isTypedView && (w1.littleEndian == w1.hostLittleEndian)
      && decide (BUFFER_COPY_THRESHOLD ≤ value.length) then
    w1.uint32ArrayFast value
  else
    value.foldl uint32 w1

/-- Fast path of `int64Array`: note the source aligns to
`value.BYTES_PER_ELEMENT`, i.e. 8, on both encapsulation versions. -/
def int64ArrayFast (w : CdrWriter) (value : List Int) : CdrWriter :=
  w.fastStore 8 (value.map fun v => encodeUInt 8 (toUnsigned 8 v) w.littleEndian)

/-- `int64Array`. -/
def int64Array (w : CdrWriter) (value : List Int)
    (isTypedView writeLength : Bool) : CdrWriter :=
  let w1 := if writeLength then w.sequenceLength ((value.length : Nat) : Int) else w
  if isTypedView && (w1.littleEndian == w1.hostLittleEndian)
      && decide (BUFFER_COPY_THRESHOLD ≤ value.length) then
    w1.int64ArrayFast value
  else
    value.foldl int64 w1

/-- Fast path of `uint64Array`. -/
def uint64ArrayFast (w : CdrWriter) (value : List Int) : CdrWriter :=
  w.fastStore 8 (value.map fun v => encodeUInt 8 (toUnsigned 8 v) w.littleEndian)

/-- `uint64Array`. -/
def uint64Array (w : CdrWriter) (value : List Int)
    (isTypedView writeLength : Bool) : CdrWriter :=
  let w1 := if writeLength then w.sequenceLength ((value.length : Nat) : Int) else w
  if isTypedView && (w1.littleEndian == w1.hostLittleEndian)
      && decide (BUFFER_COPY_THRESHOLD ≤ value.length) then
    w1.uint64ArrayFast value
  else
    value.foldl uint64 w1

/-- Fast path of `float32Array` (elements given as binary32 bit patterns). -/
def float32ArrayFast (w : CdrWriter) (value : List Nat) : CdrWriter :=
  w.fastStore 4 (value.map fun b => encodeUInt 4 b w.littleEndian)

/-- `float32Array`. -/
def float32Array (w : CdrWriter) (value : List Nat)
    (isTypedView writeLength : Bool) : CdrWriter :=
  let w1 := if writeLength then w.sequenceLength ((value.length : Nat) : Int) else w
  if isTypedView && (w1.littleEndian == w1.hostLittleEndian)
      && decide (BUFFER_COPY_THRESHOLD ≤ value.length) then
    w1.float32ArrayFast value
  else
    value.foldl float32 w1

/-- Fast path of `float64Array` (elements given as binary64 bit patterns). -/
def float64ArrayFast (w : CdrWriter) (value : List Nat) : CdrWriter :=
  w.fastStore 8 (value.map fun b => encodeUInt 8 b w.littleEndian)

/-- `float64Array`. -/
def float64Array (w : CdrWriter) (value : List Nat)
    (isTypedView writeLength : Bool) : CdrWriter :=
  let w1 := if writeLength then w.sequenceLength ((value.length : Nat) : Int) else w
  if isTypedView && (w1.littleEndian == w1.hostLittleEndian)
      && decide (BUFFER_COPY_THRESHOLD ≤ value.length) then
    w1.float64ArrayFast value
  else
    value.foldl float64 w1

end CdrWriter

/-- The constructor options (`CdrWriterOpts`): an optional pre-owned buffer
with its content and byteLength, an optional initial size, an optional kind. -/
structure CdrWriterOpts where
  buffer : Option ((Nat → Nat) × Nat)
  size : Option Nat
  kind : Option EncapsulationKind

/-- Initial buffer content chosen by the constructor: the supplied buffer, or a
zero-filled allocation.  The content above the byteLength is normalized to 0
(those indices are only ever materialized by a resize, which zero-fills). -/
def optsInitialBuf (o : CdrWriterOpts) : Nat → Nat :=
  match o.buffer with
  | some bc => fun i => if i < bc.2 then bc.1 i else 0
  | none => fun _ => 0

/-- Initial capacity chosen by the constructor: the byteLength of the supplied
buffer, else the requested size, else DEFAULT_CAPACITY. -/
def optsCapacity (o : CdrWriterOpts) : Nat :=
  match o.buffer with
  | some bc => bc.2
  | none => match o.size with
    | some s => s
    | none => CdrWriter.DEFAULT_CAPACITY

/-- The constructor.  The call `this.#resizeIfNeeded(4)` in the source reads
`this.#offset` before that field is initialized: the field is `undefined`, so
`undefined + 4` is NaN, `byteLength < NaN` is false, and no resize ever
happens there.  The header bytes `{0, kind, 0, 0}` are then written at fixed
positions 0-3, which throws a RangeError when the buffer holds fewer than 4
bytes; otherwise offset and origin are set to 4.  `hostLE` is the result of
the `isBigEndian()` environment probe, negated. -/
def createWriter (o : CdrWriterOpts) (hostLE : Bool) : Except String CdrWriter :=
  let kind := match o.kind with
    | some k => k
    | none => EncapsulationKind.CDR_LE
  if optsCapacity o < 4 then
    .error "RangeError: Offset is outside the bounds of the DataView"
  else
    .ok { buf := storeBytes (optsInitialBuf o) 0 [0, kindValue kind, 0, 0]
          capacity := optsCapacity o
          offset := 4
          origin := 4
          littleEndian := kindLittleEndian kind
          hostLittleEndian := hostLE
          isCDR2 := kindIsCDR2 kind }

/-! ### Basic lemmas about the byte-level primitives -/

theorem getD_append_lt (l l' : List Nat) (n : Nat) (h : n < l.length) :
    (l ++ l').getD n 0 = l.getD n 0 := by
  induction l generalizing n with
  | nil => simp at h
  | cons x xs ih =>
    cases n with
    | zero => rfl
    | succ m => simpa using ih m (by simpa using h)

theorem getD_append_ge (l l' : List Nat) (n : Nat) (h : l.length ≤ n) :
    (l ++ l').getD n 0 = l'.getD (n - l.length) 0 := by
  induction l generalizing n with
  | nil => simp
  | cons x xs ih =>
    cases n with
    | zero => simp at h
    | succ m => simpa using ih m (by simp at h; omega)

theorem getD_replicate_zero (n i : Nat) : (List.replicate n (0 : Nat)).getD i 0 = 0 := by
  induction n generalizing i with
  | zero => rfl
  | succ m ih =>
    cases i with
    | zero => rfl
    | succ j => simp [List.replicate_succ, List.getD_cons_succ, ih j]

theorem storeBytes_of_lt (f : Nat → Nat) (pos : Nat) (bs : List Nat) (i : Nat)
    (h : i < pos) : storeBytes f pos bs i = f i := by
  unfold storeBytes
  rw [if_neg]
  omega

theorem storeBytes_of_ge (f : Nat → Nat) (pos : Nat) (bs : List Nat) (i : Nat)
    (h : pos + bs.length ≤ i) : storeBytes f pos bs i = f i := by
  unfold storeBytes
  rw [if_neg]
  omega

theorem storeBytes_of_mem (f : Nat → Nat) (pos : Nat) (bs : List Nat) (i : Nat)
    (h1 : pos ≤ i) (h2 : i < pos + bs.length) :
    storeBytes f pos bs i = bs.getD (i - pos) 0 := by
  unfold storeBytes
  rw [if_pos]
  omega

theorem storeBytes_nil (f : Nat → Nat) (pos i : Nat) : storeBytes f pos [] i = f i := by
  unfold storeBytes
  rw [if_neg]
  simp

theorem storeBytes_append (f : Nat → Nat) (pos : Nat) (bs1 bs2 : List Nat) (i : Nat) :
    storeBytes f pos (bs1 ++ bs2) i
      = storeBytes (storeBytes f pos bs1) (pos + bs1.length) bs2 i := by
  by_cases h1 : i < pos
  · rw [storeBytes_of_lt _ _ _ _ h1, storeBytes_of_lt _ _ _ _ (by omega),
      storeBytes_of_lt _ _ _ _ h1]
  · by_cases h2 : i < pos + bs1.length
    · rw [storeBytes_of_mem _ _ _ _ (by omega) (by simp; omega),
        storeBytes_of_lt _ _ _ _ (by omega),
        storeBytes_of_mem _ _ _ _ (by omega) h2,
        getD_append_lt _ _ _ (by omega)]
    · by_cases h3 : i < pos + bs1.length + bs2.length
      · rw [storeBytes_of_mem _ _ _ _ (by omega) (by simp; omega),
          storeBytes_of_mem _ _ _ _ (by omega) (by omega),
          getD_append_ge _ _ _ (by omega)]
        congr 1
        omega
      · rw [storeBytes_of_ge _ _ _ _ (by simp; omega),
          storeBytes_of_ge _ _ _ _ (by omega),
          storeBytes_of_ge _ _ _ _ (by omega)]

theorem toBytesLE_length (width v : Nat) : (toBytesLE width v).length = width := by
  induction width generalizing v with
  | zero => rfl
  | succ n ih => simp [toBytesLE, ih]

theorem encodeUInt_length (width v : Nat) (le : Bool) :
    (encodeUInt width v le).length = width := by
  cases le <;> simp [encodeUInt, toBytesLE_length]

namespace CdrWriter

/-! ### Lemmas about padding arithmetic -/

theorem padOf_lt (p o a : Nat) (ha : 0 < a) : padOf p o a < a := by
  unfold padOf
  split <;> omega

theorem padOf_aligned (p o a : Nat) (h : o ≤ p) (ha : 0 < a) :
    (p + padOf p o a - o) % a = 0 := by
  have hd : p + padOf p o a - o = (p - o) + padOf p o a := by omega
  rw [hd]
  unfold padOf
  by_cases hz : (p - o) % a = 0
  · simp [hz]
  · have hlt : (p - o) % a < a := Nat.mod_lt _ ha
    rw [if_pos (by omega)]
    rw [Nat.add_mod, Nat.mod_eq_of_lt (show a - (p - o) % a < a by omega)]
    rw [show (p - o) % a + (a - (p - o) % a) = a by omega]
    simp

theorem padOf_eq_zero (p o a : Nat) (h : a ∣ (p - o)) : padOf p o a = 0 := by
  obtain ⟨c, hc⟩ := h
  unfold padOf
  rw [hc, Nat.mul_mod_right]
  simp

theorem padOf_dvd (p o a : Nat) (h : o ≤ p) (ha : 0 < a) :
    a ∣ (p + padOf p o a - o) :=
  Nat.dvd_of_mod_eq_zero (padOf_aligned p o a h ha)

end CdrWriter

namespace CdrWriter

/-! ### Field preservation and capacity facts for resize and align -/

theorem resize_offset (w : CdrWriter) (c : Nat) : (w.resize c).offset = w.offset := by
  unfold resize; split <;> rfl

theorem resize_origin (w : CdrWriter) (c : Nat) : (w.resize c).origin = w.origin := by
  unfold resize; split <;> rfl

theorem resize_littleEndian (w : CdrWriter) (c : Nat) :
    (w.resize c).littleEndian = w.littleEndian := by
  unfold resize; split <;> rfl

theorem resize_hostLittleEndian (w : CdrWriter) (c : Nat) :
    (w.resize c).hostLittleEndian = w.hostLittleEndian := by
  unfold resize; split <;> rfl

theorem resize_isCDR2 (w : CdrWriter) (c : Nat) : (w.resize c).isCDR2 = w.isCDR2 := by
  unfold resize; split <;> rfl

theorem resize_capacity (w : CdrWriter) (c : Nat) :
    (w.resize c).capacity = max w.capacity c := by
  unfold resize; split <;> simp <;> omega

theorem resize_buf_below (w : CdrWriter) (c i : Nat) (h : i < w.capacity) :
    (w.resize c).buf i = w.buf i := by
  unfold resize
  split
  · rfl
  · simp [h]

theorem resizeIfNeeded_offset (w : CdrWriter) (n : Nat) :
    (w.resizeIfNeeded n).offset = w.offset := by
  simp only [resizeIfNeeded]; split <;> simp [resize_offset]

theorem resizeIfNeeded_origin (w : CdrWriter) (n : Nat) :
    (w.resizeIfNeeded n).origin = w.origin := by
  simp only [resizeIfNeeded]; split <;> simp [resize_origin]

theorem resizeIfNeeded_littleEndian (w : CdrWriter) (n : Nat) :
    (w.resizeIfNeeded n).littleEndian = w.littleEndian := by
  simp only [resizeIfNeeded]; split <;> simp [resize_littleEndian]

theorem resizeIfNeeded_hostLittleEndian (w : CdrWriter) (n : Nat) :
    (w.resizeIfNeeded n).hostLittleEndian = w.hostLittleEndian := by
  simp only [resizeIfNeeded]; split <;> simp [resize_hostLittleEndian]

theorem resizeIfNeeded_isCDR2 (w : CdrWriter) (n : Nat) :
    (w.resizeIfNeeded n).isCDR2 = w.isCDR2 := by
  simp only [resizeIfNeeded]; split <;> simp [resize_isCDR2]

theorem resizeIfNeeded_capacity_le (w : CdrWriter) (n : Nat) :
    w.capacity ≤ (w.resizeIfNeeded n).capacity := by
  simp only [resizeIfNeeded]
  split
  · rw [resize_capacity]; omega
  · omega

theorem resizeIfNeeded_room (w : CdrWriter) (n : Nat) :
    w.offset + n ≤ (w.resizeIfNeeded n).capacity := by
  simp only [resizeIfNeeded]
  split
  · rw [resize_capacity]
    split <;> omega
  · omega

theorem resizeIfNeeded_buf_below (w : CdrWriter) (n i : Nat) (h : i < w.capacity) :
    (w.resizeIfNeeded n).buf i = w.buf i := by
  simp only [resizeIfNeeded]
  split
  · rw [resize_buf_below _ _ _ h]
  · rfl

theorem resizeIfNeeded_grow (w : CdrWriter) (n : Nat)
    (h : w.capacity < w.offset + n) :
    (w.resizeIfNeeded n).capacity = max (w.capacity * 2) (w.offset + n) := by
  simp only [resizeIfNeeded]
  rw [if_pos h, resize_capacity]
  split <;> omega

theorem resizeIfNeeded_no_grow (w : CdrWriter) (n : Nat)
    (h : w.offset + n ≤ w.capacity) : w.resizeIfNeeded n = w := by
  simp only [resizeIfNeeded]
  rw [if_neg (by omega)]

theorem align_offset (w : CdrWriter) (a b : Nat) :
    (w.align a b).offset = w.offset + padOf w.offset w.origin a := by
  simp only [align]
  simp [resizeIfNeeded_offset]

theorem align_origin (w : CdrWriter) (a b : Nat) : (w.align a b).origin = w.origin := by
  simp only [align]
  simp [resizeIfNeeded_origin]

theorem align_littleEndian (w : CdrWriter) (a b : Nat) :
    (w.align a b).littleEndian = w.littleEndian := by
  simp only [align]
  simp [resizeIfNeeded_littleEndian]

theorem align_hostLittleEndian (w : CdrWriter) (a b : Nat) :
    (w.align a b).hostLittleEndian = w.hostLittleEndian := by
  simp only [align]
  simp [resizeIfNeeded_hostLittleEndian]

theorem align_isCDR2 (w : CdrWriter) (a b : Nat) : (w.align a b).isCDR2 = w.isCDR2 := by
  simp only [align]
  simp [resizeIfNeeded_isCDR2]

theorem align_room (w : CdrWriter) (a b : Nat) :
    w.offset + padOf w.offset w.origin a + b ≤ (w.align a b).capacity := by
  simp only [align]
  have := w.resizeIfNeeded_room (padOf w.offset w.origin a + b)
  simpa using by omega

theorem align_capacity_le (w : CdrWriter) (a b : Nat) :
    w.capacity ≤ (w.align a b).capacity := by
  simp only [align]
  simpa using w.resizeIfNeeded_capacity_le (padOf w.offset w.origin a + b)

theorem align_buf_below (w : CdrWriter) (a b i : Nat) (hcap : w.offset ≤ w.capacity)
    (h : i < w.offset) : (w.align a b).buf i = w.buf i := by
  simp only [align]
  simp only [resizeIfNeeded_offset]
  rw [storeBytes_of_lt _ _ _ _ h, resizeIfNeeded_buf_below _ _ _ (by omega)]

theorem align_buf_pad (w : CdrWriter) (a b i : Nat) (h1 : w.offset ≤ i)
    (h2 : i < w.offset + padOf w.offset w.origin a) : (w.align a b).buf i = 0 := by
  simp only [align]
  simp only [resizeIfNeeded_offset]
  rw [storeBytes_of_mem _ _ _ _ h1 (by simpa using h2), getD_replicate_zero]

end CdrWriter

namespace CdrWriter

/-! ### Characterization of the shared aligned-write shape -/

theorem putChunk_char (w : CdrWriter) (a len : Nat) (bs : List Nat)
    (hcap : w.offset ≤ w.capacity) :
    (w.putChunk a len bs).offset = w.offset + padOf w.offset w.origin a + len ∧
    (w.putChunk a len bs).origin = w.origin ∧
    (w.putChunk a len bs).littleEndian = w.littleEndian ∧
    (w.putChunk a len bs).hostLittleEndian = w.hostLittleEndian ∧
    (w.putChunk a len bs).isCDR2 = w.isCDR2 ∧
    w.offset + padOf w.offset w.origin a + len ≤ (w.putChunk a len bs).capacity ∧
    (∀ i, i < w.offset → (w.putChunk a len bs).buf i = w.buf i) ∧
    (∀ i, w.offset ≤ i → i < w.offset + padOf w.offset w.origin a →
      (w.putChunk a len bs).buf i = 0) ∧
    (∀ j, j < bs.length →
      (w.putChunk a len bs).buf (w.offset + padOf w.offset w.origin a + j) = bs.getD j 0) := by
  refine ⟨?_, ?_, ?_, ?_, ?_, ?_, ?_, ?_, ?_⟩
  · simp only [putChunk]
    rw [align_offset]
  · simp only [putChunk]
    rw [align_origin]
  · simp only [putChunk]
    rw [align_littleEndian]
  · simp only [putChunk]
    rw [align_hostLittleEndian]
  · simp only [putChunk]
    rw [align_isCDR2]
  · simp only [putChunk]
    exact w.align_room a len
  · intro i hi
    simp only [putChunk]
    rw [storeBytes_of_lt _ _ _ _ (by rw [align_offset]; omega)]
    exact w.align_buf_below a len i hcap hi
  · intro i h1 h2
    simp only [putChunk]
    rw [storeBytes_of_lt _ _ _ _ (by rw [align_offset]; omega)]
    exact w.align_buf_pad a len i h1 h2
  · intro j hj
    simp only [putChunk]
    rw [storeBytes_of_mem _ _ _ _ (by rw [align_offset]; omega)
      (by rw [align_offset]; omega)]
    congr 1
    rw [align_offset]
    omega

/-! ### The frame relation: a completed operation keeps the already written
bytes, moves the cursor forward and maintains the basic invariant -/

/-- Operation `w ~> w'` keeps all bytes below the old offset, never moves the
cursor backwards and leaves a state satisfying the basic invariant. -/
def Preserves (w w' : CdrWriter) : Prop :=
  w.offset ≤ w'.offset ∧ w'.origin ≤ w'.offset ∧ w'.offset ≤ w'.capacity ∧
    ∀ i, i < w.offset → w'.buf i = w.buf i

theorem Preserves.valid {w w' : CdrWriter} (h : Preserves w w') : w'.Valid :=
  ⟨h.2.1, h.2.2.1⟩

theorem preserves_self (w : CdrWriter) (hv : w.Valid) : Preserves w w :=
  ⟨le_refl _, hv.1, hv.2, fun _ _ => rfl⟩

theorem preserves_trans {w w1 w2 : CdrWriter} (h1 : Preserves w w1)
    (h2 : Preserves w1 w2) : Preserves w w2 := by
  refine ⟨le_trans h1.1 h2.1, h2.2.1, h2.2.2.1, ?_⟩
  intro i hi
  rw [h2.2.2.2 i (lt_of_lt_of_le hi h1.1), h1.2.2.2 i hi]

theorem preserves_putChunk (w : CdrWriter) (a len : Nat) (bs : List Nat)
    (hv : w.Valid) : Preserves w (w.putChunk a len bs) := by
  obtain ⟨hoff, horig, _, _, _, hcap, hbelow, _, _⟩ := w.putChunk_char a len bs hv.2
  exact ⟨by omega, by rw [hoff, horig]; have := hv.1; omega, by omega, hbelow⟩

theorem int8_char (w : CdrWriter) (v : Int) (hcap : w.offset ≤ w.capacity) :
    (w.int8 v).offset = w.offset + 1 ∧
    (w.int8 v).origin = w.origin ∧
    (w.int8 v).littleEndian = w.littleEndian ∧
    (w.int8 v).hostLittleEndian = w.hostLittleEndian ∧
    (w.int8 v).isCDR2 = w.isCDR2 ∧
    w.offset + 1 ≤ (w.int8 v).capacity ∧
    (∀ i, i < w.offset → (w.int8 v).buf i = w.buf i) ∧
    (w.int8 v).buf w.offset = toUnsigned 1 v := by
  refine ⟨?_, ?_, ?_, ?_, ?_, ?_, ?_, ?_⟩
  · simp only [int8]
    rw [resizeIfNeeded_offset]
  · simp only [int8]
    rw [resizeIfNeeded_origin]
  · simp only [int8]
    rw [resizeIfNeeded_littleEndian]
  · simp only [int8]
    rw [resizeIfNeeded_hostLittleEndian]
  · simp only [int8]
    rw [resizeIfNeeded_isCDR2]
  · simp only [int8]
    exact w.resizeIfNeeded_room 1
  · intro i hi
    simp only [int8]
    rw [storeBytes_of_lt _ _ _ _ (by rw [resizeIfNeeded_offset]; omega)]
    exact w.resizeIfNeeded_buf_below 1 i (by omega)
  · simp only [int8]
    rw [storeBytes_of_mem _ _ _ _ (by rw [resizeIfNeeded_offset]) (by
      rw [resizeIfNeeded_offset]; simp)]
    rw [resizeIfNeeded_offset]
    simp

theorem uint8_char (w : CdrWriter) (v : Int) (hcap : w.offset ≤ w.capacity) :
    (w.uint8 v).offset = w.offset + 1 ∧
    (w.uint8 v).origin = w.origin ∧
    (w.uint8 v).littleEndian = w.littleEndian ∧
    (w.uint8 v).hostLittleEndian = w.hostLittleEndian ∧
    (w.uint8 v).isCDR2 = w.isCDR2 ∧
    w.offset + 1 ≤ (w.uint8 v).capacity ∧
    (∀ i, i < w.offset → (w.uint8 v).buf i = w.buf i) ∧
    (w.uint8 v).buf w.offset = toUnsigned 1 v := by
  exact w.int8_char v hcap

theorem preserves_int8 (w : CdrWriter) (v : Int) (hv : w.Valid) :
    Preserves w (w.int8 v) := by
  obtain ⟨hoff, horig, _, _, _, hcap, hbelow, _⟩ := w.int8_char v hv.2
  exact ⟨by omega, by rw [hoff, horig]; have := hv.1; omega, by omega, hbelow⟩

theorem preserves_uint8 (w : CdrWriter) (v : Int) (hv : w.Valid) :
    Preserves w (w.uint8 v) := by
  exact w.preserves_int8 v hv

end CdrWriter

namespace CdrWriter

theorem preserves_align (w : CdrWriter) (a b : Nat) (hv : w.Valid) :
    Preserves w (w.align a b) := by
  refine ⟨?_, ?_, ?_, ?_⟩
  · rw [align_offset]; omega
  · rw [align_offset, align_origin]; have := hv.1; omega
  · rw [align_offset]
    have := w.align_room a b
    omega
  · intro i hi
    exact w.align_buf_below a b i hv.2 hi

theorem preserves_setOrigin (w : CdrWriter) (hv : w.Valid) :
    Preserves w { w with origin := w.offset } :=
  ⟨le_refl _, le_refl _, hv.2, fun _ _ => rfl⟩

theorem preserves_foldl {α : Type} (op : CdrWriter → α → CdrWriter)
    (hop : ∀ u v, u.Valid → Preserves u (op u v)) (l : List α) (w : CdrWriter)
    (hv : w.Valid) : Preserves w (l.foldl op w) := by
  induction l generalizing w with
  | nil => exact w.preserves_self hv
  | cons v rest ih =>
    exact preserves_trans (hop w v hv) (ih (op w v) (hop w v hv).valid)

theorem preserves_uint32 (w : CdrWriter) (v : Int) (hv : w.Valid) :
    Preserves w (w.uint32 v) :=
  w.preserves_putChunk 4 4 _ hv

theorem preserves_uint16 (w : CdrWriter) (v : Int) (hv : w.Valid) :
    Preserves w (w.uint16 v) :=
  w.preserves_putChunk 2 2 _ hv

theorem preserves_stringCore (u : CdrWriter) (value : List Nat) (strlen : Nat)
    (hv : u.Valid) :
    Preserves u
      { { { u.resizeIfNeeded (strlen + 1) with
              buf := storeBytes (u.resizeIfNeeded (strlen + 1)).buf
                (u.resizeIfNeeded (strlen + 1)).offset (encodeIntoBytes value strlen) } with
            buf := storeBytes
              (storeBytes (u.resizeIfNeeded (strlen + 1)).buf
                (u.resizeIfNeeded (strlen + 1)).offset (encodeIntoBytes value strlen))
              ((u.resizeIfNeeded (strlen + 1)).offset + strlen) [0] } with
          offset := (u.resizeIfNeeded (strlen + 1)).offset + strlen + 1 } := by
  refine ⟨?_, ?_, ?_, ?_⟩
  · simp [resizeIfNeeded_offset]
    omega
  · simp [resizeIfNeeded_offset, resizeIfNeeded_origin]
    have := hv.1
    omega
  · simp only [resizeIfNeeded_offset]
    have := u.resizeIfNeeded_room (strlen + 1)
    omega
  · intro i hi
    simp only []
    rw [storeBytes_of_lt _ _ _ _ (by rw [resizeIfNeeded_offset]; omega),
      storeBytes_of_lt _ _ _ _ (by rw [resizeIfNeeded_offset]; omega),
      resizeIfNeeded_buf_below _ _ _ (by have := hv.2; omega)]

theorem preserves_string (w : CdrWriter) (value : List Nat) (wl : Bool)
    (hv : w.Valid) : Preserves w (w.string value wl) := by
  cases wl with
  | false =>
    exact w.preserves_stringCore value (utf16Length value) hv
  | true =>
    have h1 : Preserves w (w.uint32 ((utf16Length value : Int) + 1)) :=
      w.preserves_uint32 _ hv
    exact preserves_trans h1
      ((w.uint32 ((utf16Length value : Int) + 1)).preserves_stringCore value
        (utf16Length value) h1.valid)

end CdrWriter

namespace CdrWriter

theorem fastStore_eq_putChunk (w : CdrWriter) (len : Nat) (chunks : List (List Nat)) :
    w.fastStore len chunks = w.putChunk len (chunks.length * len) chunks.flatten := rfl

theorem preserves_fastStore (w : CdrWriter) (len : Nat) (chunks : List (List Nat))
    (hv : w.Valid) : Preserves w (w.fastStore len chunks) :=
  w.preserves_putChunk len (chunks.length * len) chunks.flatten hv

theorem Preserves.step {w u u' : CdrWriter} (h : Preserves w u)
    (f : u.Valid → Preserves u u') : Preserves w u' :=
  preserves_trans h (f h.valid)

theorem preserves_memberHeaderV1 (w : CdrWriter) (mu : Bool) (id sz : Nat)
    (hv : w.Valid) : Preserves w (w.memberHeaderV1 mu id sz) := by
  simp only [memberHeaderV1]
  split
  · exact (((w.preserves_align 4 4 hv).step (fun h1 => preserves_uint16 _ _ h1)).step
      (fun h2 => preserves_uint16 _ _ h2)).step (fun h3 => preserves_setOrigin _ h3)
  · exact (((((w.preserves_align 4 4 hv).step (fun h1 => preserves_uint16 _ _ h1)).step
      (fun h2 => preserves_uint16 _ _ h2)).step (fun h3 => preserves_uint32 _ _ h3)).step
      (fun h4 => preserves_uint32 _ _ h4)).step (fun h5 => preserves_setOrigin _ h5)

theorem preserves_sentinelHeader (w : CdrWriter) (hv : w.Valid) :
    Preserves w w.sentinelHeader := by
  simp only [sentinelHeader]
  split
  · exact ((w.preserves_align 4 4 hv).step (fun h1 => preserves_uint16 _ _ h1)).step
      (fun h2 => preserves_uint16 _ _ h2)
  · exact w.preserves_self hv

theorem memberHeaderV2_ok_preserves (w : CdrWriter) (mu : Bool) (id sz : Nat)
    (lc : Option Nat) (w' : CdrWriter) (hv : w.Valid)
    (h : w.memberHeaderV2 mu id sz lc = .ok w') : Preserves w w' := by
  simp only [memberHeaderV2] at h
  split at h
  · simp at h
  · split at h
    · split at h
      · simp at h
      · injection h with h2
        subst h2
        exact preserves_uint32 _ _ hv
    · split at h
      · injection h with h2
        subst h2
        exact (preserves_uint32 w _ hv).step (fun h1 => preserves_uint32 _ _ h1)
      · split at h
        · split at h
          · simp at h
          · injection h with h2
            subst h2
            exact (preserves_uint32 w _ hv).step (fun h1 => preserves_uint32 _ _ h1)
        · split at h
          · split at h
            · simp at h
            · injection h with h2
              subst h2
              exact (preserves_uint32 w _ hv).step (fun h1 => preserves_uint32 _ _ h1)
          · simp at h

theorem emHeader_ok_preserves (w : CdrWriter) (mu : Bool) (id sz : Nat)
    (lc : Option Nat) (w' : CdrWriter) (hv : w.Valid)
    (h : w.emHeader mu id sz lc = .ok w') : Preserves w w' := by
  simp only [emHeader] at h
  split at h
  · exact w.memberHeaderV2_ok_preserves mu id sz lc w' hv h
  · injection h with h2
    subst h2
    exact w.preserves_memberHeaderV1 mu id sz hv

theorem preserves_bulkStore (u : CdrWriter) (bs : List Nat) (n : Nat) (hv : u.Valid) :
    Preserves u
      { u.resizeIfNeeded n with
          buf := storeBytes (u.resizeIfNeeded n).buf (u.resizeIfNeeded n).offset bs
          offset := (u.resizeIfNeeded n).offset + n } := by
  refine ⟨?_, ?_, ?_, ?_⟩
  · simp [resizeIfNeeded_offset]
  · simp [resizeIfNeeded_offset, resizeIfNeeded_origin]
    have := hv.1
    omega
  · simp only [resizeIfNeeded_offset]
    have := u.resizeIfNeeded_room n
    omega
  · intro i hi
    simp only []
    rw [storeBytes_of_lt _ _ _ _ (by rw [resizeIfNeeded_offset]; omega),
      resizeIfNeeded_buf_below _ _ _ (by have := hv.2; omega)]

theorem preserves_int8Array (w : CdrWriter) (value : List Int) (wl : Bool)
    (hv : w.Valid) : Preserves w (w.int8Array value wl) := by
  simp only [int8Array]
  have h1 : Preserves w (if wl then w.sequenceLength ((value.length : Nat) : Int) else w) := by
    split
    · exact w.preserves_putChunk 4 4 _ hv
    · exact w.preserves_self hv
  exact preserves_trans h1 (preserves_bulkStore _ _ _ h1.valid)

theorem preserves_uint8Array (w : CdrWriter) (value : List Int) (wl : Bool)
    (hv : w.Valid) : Preserves w (w.uint8Array value wl) := by
  simp only [uint8Array]
  have h1 : Preserves w (if wl then w.sequenceLength ((value.length : Nat) : Int) else w) := by
    split
    · exact w.preserves_putChunk 4 4 _ hv
    · exact w.preserves_self hv
  exact preserves_trans h1 (preserves_bulkStore _ _ _ h1.valid)

theorem preserves_dispatch_int16 (u : CdrWriter) (value : List Int) (c : Bool)
    (hv : u.Valid) :
    Preserves u (if c then u.int16ArrayFast value else value.foldl int16 u) := by
  split
  · exact preserves_fastStore _ _ _ hv
  · exact preserves_foldl int16 (fun a b hb => a.preserves_putChunk 2 2 _ hb) value _ hv

theorem preserves_dispatch_uint16 (u : CdrWriter) (value : List Int) (c : Bool)
    (hv : u.Valid) :
    Preserves u (if c then u.uint16ArrayFast value else value.foldl uint16 u) := by
  split
  · exact preserves_fastStore _ _ _ hv
  · exact preserves_foldl uint16 (fun a b hb => a.preserves_putChunk 2 2 _ hb) value _ hv

theorem preserves_dispatch_int32 (u : CdrWriter) (value : List Int) (c : Bool)
    (hv : u.Valid) :
    Preserves u (if c then u.int32ArrayFast value else value.foldl int32 u) := by
  split
  · exact preserves_fastStore _ _ _ hv
  · exact preserves_foldl int32 (fun a b hb => a.preserves_putChunk 4 4 _ hb) value _ hv

theorem preserves_dispatch_uint32 (u : CdrWriter) (value : List Int) (c : Bool)
    (hv : u.Valid) :
    Preserves u (if c then u.uint32ArrayFast value else value.foldl uint32 u) := by
  split
  · exact preserves_fastStore _ _ _ hv
  · exact preserves_foldl uint32 (fun a b hb => a.preserves_putChunk 4 4 _ hb) value _ hv

theorem preserves_dispatch_int64 (u : CdrWriter) (value : List Int) (c : Bool)
    (hv : u.Valid) :
    Preserves u (if c then u.int64ArrayFast value else value.foldl int64 u) := by
  split
  · exact preserves_fastStore _ _ _ hv
  · exact preserves_foldl int64
      (fun a b hb => a.preserves_putChunk a.eightByteAlignment 8 _ hb) value _ hv

theorem preserves_dispatch_uint64 (u : CdrWriter) (value : List Int) (c : Bool)
    (hv : u.Valid) :
    Preserves u (if c then u.uint64ArrayFast value else value.foldl uint64 u) := by
  split
  · exact preserves_fastStore _ _ _ hv
  · exact preserves_foldl uint64
      (fun a b hb => a.preserves_putChunk a.eightByteAlignment 8 _ hb) value _ hv

theorem preserves_dispatch_float32 (u : CdrWriter) (value : List Nat) (c : Bool)
    (hv : u.Valid) :
    Preserves u (if c then u.float32ArrayFast value else value.foldl float32 u) := by
  split
  · exact preserves_fastStore _ _ _ hv
  · exact preserves_foldl float32 (fun a b hb => a.preserves_putChunk 4 4 _ hb) value _ hv

theorem preserves_dispatch_float64 (u : CdrWriter) (value : List Nat) (c : Bool)
    (hv : u.Valid) :
    Preserves u (if c then u.float64ArrayFast value else value.foldl float64 u) := by
  split
  · exact preserves_fastStore _ _ _ hv
  · exact preserves_foldl float64
      (fun a b hb => a.preserves_putChunk a.eightByteAlignment 8 _ hb) value _ hv

theorem preserves_int16Array (w : CdrWriter) (value : List Int) (tv wl : Bool)
    (hv : w.Valid) : Preserves w (w.int16Array value tv wl) := by
  simp only [int16Array]
  have h1 : Preserves w (if wl then w.sequenceLength ((value.length : Nat) : Int) else w) := by
    split
    · exact w.preserves_putChunk 4 4 _ hv
    · exact w.preserves_self hv
  exact preserves_trans h1 (preserves_dispatch_int16 _ value _ h1.valid)

theorem preserves_uint16Array (w : CdrWriter) (value : List Int) (tv wl : Bool)
    (hv : w.Valid) : Preserves w (w.uint16Array value tv wl) := by
  simp only [uint16Array]
  have h1 : Preserves w (if wl then w.sequenceLength ((value.length : Nat) : Int) else w) := by
    split
    · exact w.preserves_putChunk 4 4 _ hv
    · exact w.preserves_self hv
  exact preserves_trans h1 (preserves_dispatch_uint16 _ value _ h1.valid)

theorem preserves_int32Array (w : CdrWriter) (value : List Int) (tv wl : Bool)
    (hv : w.Valid) : Preserves w (w.int32Array value tv wl) := by
  simp only [int32Array]
  have h1 : Preserves w (if wl then w.sequenceLength ((value.length : Nat) : Int) else w) := by
    split
    · exact w.preserves_putChunk 4 4 _ hv
    · exact w.preserves_self hv
  exact preserves_trans h1 (preserves_dispatch_int32 _ value _ h1.valid)

theorem preserves_uint32Array (w : CdrWriter) (value : List Int) (tv wl : Bool)
    (hv : w.Valid) : Preserves w (w.uint32Array value tv wl) := by
  simp only [uint32Array]
  have h1 : Preserves w (if wl then w.sequenceLength ((value.length : Nat) : Int) else w) := by
    split
    · exact w.preserves_putChunk 4 4 _ hv
    · exact w.preserves_self hv
  exact preserves_trans h1 (preserves_dispatch_uint32 _ value _ h1.valid)

theorem preserves_int64Array (w : CdrWriter) (value : List Int) (tv wl : Bool)
    (hv : w.Valid) : Preserves w (w.int64Array value tv wl) := by
  simp only [int64Array]
  have h1 : Preserves w (if wl then w.sequenceLength ((value.length : Nat) : Int) else w) := by
    split
    · exact w.preserves_putChunk 4 4 _ hv
    · exact w.preserves_self hv
  exact preserves_trans h1 (preserves_dispatch_int64 _ value _ h1.valid)

theorem preserves_uint64Array (w : CdrWriter) (value : List Int) (tv wl : Bool)
    (hv : w.Valid) : Preserves w (w.uint64Array value tv wl) := by
  simp only [uint64Array]
  have h1 : Preserves w (if wl then w.sequenceLength ((value.length : Nat) : Int) else w) := by
    split
    · exact w.preserves_putChunk 4 4 _ hv
    · exact w.preserves_self hv
  exact preserves_trans h1 (preserves_dispatch_uint64 _ value _ h1.valid)

theorem preserves_float32Array (w : CdrWriter) (value : List Nat) (tv wl : Bool)
    (hv : w.Valid) : Preserves w (w.float32Array value tv wl) := by
  simp only [float32Array]
  have h1 : Preserves w (if wl then w.sequenceLength ((value.length : Nat) : Int) else w) := by
    split
    · exact w.preserves_putChunk 4 4 _ hv
    · exact w.preserves_self hv
  exact preserves_trans h1 (preserves_dispatch_float32 _ value _ h1.valid)

theorem preserves_float64Array (w : CdrWriter) (value : List Nat) (tv wl : Bool)
    (hv : w.Valid) : Preserves w (w.float64Array value tv wl) := by
  simp only [float64Array]
  have h1 : Preserves w (if wl then w.sequenceLength ((value.length : Nat) : Int) else w) := by
    split
    · exact w.preserves_putChunk 4 4 _ hv
    · exact w.preserves_self hv
  exact preserves_trans h1 (preserves_dispatch_float64 _ value _ h1.valid)

end CdrWriter

/-- One public writer method call with its arguments, used to reason about
arbitrary call sequences. -/
inductive WriterOp where
  | int8Op (v : Int)
  | uint8Op (v : Int)
  | int16Op (v : Int)
  | uint16Op (v : Int)
  | int32Op (v : Int)
  | uint32Op (v : Int)
  | int64Op (v : Int)
  | uint64Op (v : Int)
  | uint16BEOp (v : Int)
  | uint32BEOp (v : Int)
  | uint64BEOp (v : Int)
  | float32Op (bits : Nat)
  | float64Op (bits : Nat)
  | stringOp (value : List Nat) (writeLength : Bool)
  | dHeaderOp (objectSize : Int)
  | sequenceLengthOp (v : Int)
  | emHeaderOp (mustUnderstand : Bool) (id objectSize : Nat) (lengthCode : Option Nat)
  | sentinelHeaderOp
  | alignOp (size bytesToWrite : Nat)
  | int8ArrayOp (value : List Int) (writeLength : Bool)
  | uint8ArrayOp (value : List Int) (writeLength : Bool)
  | int16ArrayOp (value : List Int) (isTypedView writeLength : Bool)
  | uint16ArrayOp (value : List Int) (isTypedView writeLength : Bool)
  | int32ArrayOp (value : List Int) (isTypedView writeLength : Bool)
  | uint32ArrayOp (value : List Int) (isTypedView writeLength : Bool)
  | int64ArrayOp (value : List Int) (isTypedView writeLength : Bool)
  | uint64ArrayOp (value : List Int) (isTypedView writeLength : Bool)
  | float32ArrayOp (value : List Nat) (isTypedView writeLength : Bool)
  | float64ArrayOp (value : List Nat) (isTypedView writeLength : Bool)

/-- Execute one method call on the writer; a thrown exception is an `error`
carrying the message and the state of the object when the throw happened. -/
def stepOp (w : CdrWriter) : WriterOp → Except (String × CdrWriter) CdrWriter
  | .int8Op v => .ok (w.int8 v)
  | .uint8Op v => .ok (w.uint8 v)
  | .int16Op v => .ok (w.int16 v)
  | .uint16Op v => .ok (w.uint16 v)
  | .int32Op v => .ok (w.int32 v)
  | .uint32Op v => .ok (w.uint32 v)
  | .int64Op v => .ok (w.int64 v)
  | .uint64Op v => .ok (w.uint64 v)
  | .uint16BEOp v => .ok (w.uint16BE v)
  | .uint32BEOp v => .ok (w.uint32BE v)
  | .uint64BEOp v => .ok (w.uint64BE v)
  | .float32Op bits => .ok (w.float32 bits)
  | .float64Op bits => .ok (w.float64 bits)
  | .stringOp value wl => .ok (w.string value wl)
  | .dHeaderOp sz => .ok (w.dHeader sz)
  | .sequenceLengthOp v => .ok (w.sequenceLength v)
  | .emHeaderOp mu id sz lc => w.emHeader mu id sz lc
  | .sentinelHeaderOp => .ok w.sentinelHeader
  | .alignOp s b => .ok (w.align s b)
  | .int8ArrayOp value wl => .ok (w.int8Array value wl)
  | .uint8ArrayOp value wl => .ok (w.uint8Array value wl)
  | .int16ArrayOp value tv wl => .ok (w.int16Array value tv wl)
  | .uint16ArrayOp value tv wl => .ok (w.uint16Array value tv wl)
  | .int32ArrayOp value tv wl => .ok (w.int32Array value tv wl)
  | .uint32ArrayOp value tv wl => .ok (w.uint32Array value tv wl)
  | .int64ArrayOp value tv wl => .ok (w.int64Array value tv wl)
  | .uint64ArrayOp value tv wl => .ok (w.uint64Array value tv wl)
  | .float32ArrayOp value tv wl => .ok (w.float32Array value tv wl)
  | .float64ArrayOp value tv wl => .ok (w.float64Array value tv wl)

/-- Execute a call sequence, stopping at the first thrown exception. -/
def runOps (w : CdrWriter) : List WriterOp → Except (String × CdrWriter) CdrWriter
  | [] => .ok w
  | op :: rest =>
    match stepOp w op with
    | .ok w1 => runOps w1 rest
    | .error e => .error e

namespace CdrWriter

theorem stepOp_ok_preserves (w : CdrWriter) (op : WriterOp) (w' : CdrWriter)
    (hv : w.Valid) (h : stepOp w op = .ok w') : Preserves w w' := by
  cases op with
  | int8Op v => injection h with h2; subst h2; exact w.preserves_int8 v hv
  | uint8Op v => injection h with h2; subst h2; exact w.preserves_uint8 v hv
  | int16Op v => injection h with h2; subst h2; exact w.preserves_putChunk 2 2 _ hv
  | uint16Op v => injection h with h2; subst h2; exact w.preserves_putChunk 2 2 _ hv
  | int32Op v => injection h with h2; subst h2; exact w.preserves_putChunk 4 4 _ hv
  | uint32Op v => injection h with h2; subst h2; exact w.preserves_putChunk 4 4 _ hv
  | int64Op v =>
    injection h with h2; subst h2
    exact w.preserves_putChunk w.eightByteAlignment 8 _ hv
  | uint64Op v =>
    injection h with h2; subst h2
    exact w.preserves_putChunk w.eightByteAlignment 8 _ hv
  | uint16BEOp v => injection h with h2; subst h2; exact w.preserves_putChunk 2 2 _ hv
  | uint32BEOp v => injection h with h2; subst h2; exact w.preserves_putChunk 4 4 _ hv
  | uint64BEOp v =>
    injection h with h2; subst h2
    exact w.preserves_putChunk w.eightByteAlignment 8 _ hv
  | float32Op bits => injection h with h2; subst h2; exact w.preserves_putChunk 4 4 _ hv
  | float64Op bits =>
    injection h with h2; subst h2
    exact w.preserves_putChunk w.eightByteAlignment 8 _ hv
  | stringOp value wl => injection h with h2; subst h2; exact w.preserves_string value wl hv
  | dHeaderOp sz => injection h with h2; subst h2; exact w.preserves_putChunk 4 4 _ hv
  | sequenceLengthOp v => injection h with h2; subst h2; exact w.preserves_putChunk 4 4 _ hv
  | emHeaderOp mu id sz lc => exact w.emHeader_ok_preserves mu id sz lc w' hv h
  | sentinelHeaderOp => injection h with h2; subst h2; exact w.preserves_sentinelHeader hv
  | alignOp s b => injection h with h2; subst h2; exact w.preserves_align s b hv
  | int8ArrayOp value wl =>
    injection h with h2; subst h2; exact w.preserves_int8Array value wl hv
  | uint8ArrayOp value wl =>
    injection h with h2; subst h2; exact w.preserves_uint8Array value wl hv
  | int16ArrayOp value tv wl =>
    injection h with h2; subst h2; exact w.preserves_int16Array value tv wl hv
  | uint16ArrayOp value tv wl =>
    injection h with h2; subst h2; exact w.preserves_uint16Array value tv wl hv
  | int32ArrayOp value tv wl =>
    injection h with h2; subst h2; exact w.preserves_int32Array value tv wl hv
  | uint32ArrayOp value tv wl =>
    injection h with h2; subst h2; exact w.preserves_uint32Array value tv wl hv
  | int64ArrayOp value tv wl =>
    injection h with h2; subst h2; exact w.preserves_int64Array value tv wl hv
  | uint64ArrayOp value tv wl =>
    injection h with h2; subst h2; exact w.preserves_uint64Array value tv wl hv
  | float32ArrayOp value tv wl =>
    injection h with h2; subst h2; exact w.preserves_float32Array value tv wl hv
  | float64ArrayOp value tv wl =>
    injection h with h2; subst h2; exact w.preserves_float64Array value tv wl hv

theorem runOps_ok_preserves (prog : List WriterOp) (w : CdrWriter) (w' : CdrWriter)
    (hv : w.Valid) (h : runOps w prog = .ok w') : Preserves w w' := by
  induction prog generalizing w with
  | nil =>
    simp only [runOps] at h
    injection h with h2
    subst h2
    exact w.preserves_self hv
  | cons op rest ih =>
    simp only [runOps] at h
    split at h
    · rename_i w1 hstep
      exact (w.stepOp_ok_preserves op w1 hv hstep).step (fun hv1 => ih w1 hv1 h)
  -- the error branch contradicts h
    · simp at h

end CdrWriter

/-- Every writer the constructor returns satisfies the basic invariant with
origin = offset = 4. -/
theorem createWriter_ok_shape (o : CdrWriterOpts) (hostLE : Bool) (w : CdrWriter)
    (h : createWriter o hostLE = .ok w) :
    w.offset = 4 ∧ w.origin = 4 ∧ w.capacity = optsCapacity o ∧ 4 ≤ w.capacity := by
  simp only [createWriter] at h
  split at h
  · simp at h
  · injection h with h2
    subst h2
    refine ⟨rfl, rfl, rfl, ?_⟩
    show 4 ≤ optsCapacity o
    omega

/-! ### Concrete writers used by the concrete-scenario claims -/

/-- The writer produced by `new CdrWriter({})` (default options: CDR_LE, a
fresh 16-byte buffer) on a little-endian host. -/
def wCDRLE : CdrWriter :=
  { buf := storeBytes (fun _ => 0) 0 [0, 1, 0, 0]
    capacity := 16
    offset := 4
    origin := 4
    littleEndian := true
    hostLittleEndian := true
    isCDR2 := false }

/-- The writer produced by `new CdrWriter({kind: CDR2_LE})` on a little-endian
host. -/
def wCDR2LE : CdrWriter :=
  { buf := storeBytes (fun _ => 0) 0 [0, 0x11, 0, 0]
    capacity := 16
    offset := 4
    origin := 4
    littleEndian := true
    hostLittleEndian := true
    isCDR2 := true }

theorem createWriter_default : createWriter ⟨none, none, none⟩ true = .ok wCDRLE := rfl

theorem createWriter_cdr2le :
    createWriter ⟨none, none, some EncapsulationKind.CDR2_LE⟩ true = .ok wCDR2LE := rfl

/-! ### Claim theorems -/

/-- C1 (code_bug): the writer computes the string length from the UTF-16
code-unit count, not the UTF-8 byte length.  For the ASCII example "abc" the
two coincide and the claimed bytes 04 00 00 00 61 62 63 00 follow the 4-byte
encapsulation header.  For the one-character string "é" (U+00E9, UTF-8 bytes
C3 A9) the claim requires the length word 3 and the bytes C3 A9 00, but the
code writes the length word 2, encodes nothing (the 2-byte character does not
fit the 1-byte window), and emits a leftover 0 byte plus the terminator. -/
theorem c1_string_utf8_bug :
    createWriter ⟨none, none, none⟩ true = .ok wCDRLE ∧
    (wCDRLE.string [97, 98, 99] true).data = [0, 1, 0, 0, 4, 0, 0, 0, 97, 98, 99, 0] ∧
    (wCDRLE.string [233] true).data = [0, 1, 0, 0, 2, 0, 0, 0, 0, 0] ∧
    (wCDRLE.string [233] true).data ≠ [0, 1, 0, 0, 3, 0, 0, 0, 195, 169, 0] :=
  ⟨rfl, by decide, by decide, by decide⟩

/-- C8 (counterexample): in the stream written by a CDR2_LE writer after
`uint8(1); float64(1.0)` the first four bytes are the encapsulation header
00 11 00 00, not 11 00 00 00 as the claim states, so the claimed byte string
is not the produced one. -/
theorem c8_counterexample :
    createWriter ⟨none, none, some EncapsulationKind.CDR2_LE⟩ true = .ok wCDR2LE ∧
    ((wCDR2LE.uint8 1).float64 0x3FF0000000000000).data ≠
      [0x11, 0, 0, 0, 1, 0, 0, 0, 0, 0, 0, 0, 0, 0, 0xF0, 0x3F] :=
  ⟨rfl, by decide⟩

/-- C8 (amended): the same call sequence yields 00 11 00 00 (the encapsulation
header: first byte 0, then the kind byte 0x11), then 01 and three zero padding
bytes (4-byte, not 8-byte, pre-alignment under XCDR2), then the 8 little-endian
bytes of 1.0. -/
theorem c8_amended :
    createWriter ⟨none, none, some EncapsulationKind.CDR2_LE⟩ true = .ok wCDR2LE ∧
    ((wCDR2LE.uint8 1).float64 0x3FF0000000000000).data =
      [0, 0x11, 0, 0, 1, 0, 0, 0, 0, 0, 0, 0, 0, 0, 0xF0, 0x3F] :=
  ⟨rfl, by decide⟩

/-- C10: a constructor call whose initial buffer holds fewer than 4 bytes
fails (the pre-write capacity check reads the still-undefined offset field and
never resizes, so the header write lands out of bounds); a successful
construction keeps the initial capacity unchanged, hence capacity is at
least 4. -/
theorem c10_constructor_capacity (o : CdrWriterOpts) (hostLE : Bool) :
    (optsCapacity o < 4 →
      createWriter o hostLE =
        .error "RangeError: Offset is outside the bounds of the DataView") ∧
    (∀ w, createWriter o hostLE = .ok w →
      w.capacity = optsCapacity o ∧ 4 ≤ w.capacity) := by
  constructor
  · intro h
    simp only [createWriter]
    rw [if_pos h]
  · intro w h
    have hs := createWriter_ok_shape o hostLE w h
    exact ⟨hs.2.2.1, hs.2.2.2⟩

theorem c10_witness :
    createWriter ⟨none, some 2, none⟩ true =
      .error "RangeError: Offset is outside the bounds of the DataView" :=
  (c10_constructor_capacity ⟨none, some 2, none⟩ true).1 (by decide)

/-- C9: a successfully constructed writer starts with origin = offset = 4 ≤
capacity, and after any call sequence that completes without a thrown
exception the invariant origin ≤ offset ≤ capacity still holds. -/
theorem c9_invariant (o : CdrWriterOpts) (hostLE : Bool) (w0 : CdrWriter)
    (h0 : createWriter o hostLE = .ok w0) (prog : List WriterOp) (w : CdrWriter)
    (h : runOps w0 prog = .ok w) :
    (w0.origin = 4 ∧ w0.offset = 4 ∧ 4 ≤ w0.capacity) ∧
      w.origin ≤ w.offset ∧ w.offset ≤ w.capacity := by
  obtain ⟨hoff, horig, _, hge⟩ := createWriter_ok_shape o hostLE w0 h0
  have hv0 : w0.Valid := ⟨by omega, by omega⟩
  have hp := CdrWriter.runOps_ok_preserves prog w0 w hv0 h
  exact ⟨⟨horig, hoff, by omega⟩, hp.valid.1, hp.valid.2⟩

theorem c9_witness :
    (wCDRLE.origin = 4 ∧ wCDRLE.offset = 4 ∧ 4 ≤ wCDRLE.capacity) ∧
      (wCDRLE.uint8 1).origin ≤ (wCDRLE.uint8 1).offset ∧
      (wCDRLE.uint8 1).offset ≤ (wCDRLE.uint8 1).capacity :=
  c9_invariant ⟨none, none, none⟩ true wCDRLE rfl [.uint8Op 1] (wCDRLE.uint8 1) rfl

/-- C7: when a write needs more room than the capacity offers, the buffer
grows to max(2 * capacity, offset + additional bytes) keeping every byte below
the offset; when it fits, nothing changes; and every method call that
completes leaves all bytes below the old offset untouched. -/
theorem c7_growth (w : CdrWriter) (hv : w.Valid) :
    (∀ n, w.capacity < w.offset + n →
      (w.resizeIfNeeded n).capacity = max (w.capacity * 2) (w.offset + n) ∧
        ∀ i, i < w.offset → (w.resizeIfNeeded n).buf i = w.buf i) ∧
    (∀ n, w.offset + n ≤ w.capacity → w.resizeIfNeeded n = w) ∧
    (∀ op w', stepOp w op = .ok w' → ∀ i, i < w.offset → w'.buf i = w.buf i) := by
  refine ⟨?_, ?_, ?_⟩
  · intro n h
    refine ⟨w.resizeIfNeeded_grow n h, ?_⟩
    intro i hi
    exact w.resizeIfNeeded_buf_below n i (by have := hv.2; omega)
  · exact fun n h => w.resizeIfNeeded_no_grow n h
  · intro op w' h i hi
    exact (CdrWriter.stepOp_ok_preserves w op w' hv h).2.2.2 i hi

theorem c7_witness :
    (wCDRLE.resizeIfNeeded 21).capacity = max (wCDRLE.capacity * 2) (wCDRLE.offset + 21) :=
  ((c7_growth wCDRLE (by decide)).1 21 (by decide)).1

/-- What the alignment claim asserts about one scalar write: taking `A` as the
alignment size and `width` as the byte width of the value, after the write
(offset - origin) is a multiple of A, origin is unchanged, offset advanced by
exactly the padding plus the width, and every padding byte is zero. -/
def ScalarPost (w w' : CdrWriter) (A width : Nat) : Prop :=
  (w'.offset - w'.origin) % A = 0 ∧
  w'.origin = w.origin ∧
  w'.offset = w.offset + CdrWriter.padOf w.offset w.origin A + width ∧
  ∀ i, w.offset ≤ i → i < w.offset + CdrWriter.padOf w.offset w.origin A → w'.buf i = 0

theorem putChunk_scalarPost (w : CdrWriter) (a len : Nat) (bs : List Nat)
    (hv : w.Valid) (ha : 0 < a) (hdvd : a ∣ len) :
    ScalarPost w (w.putChunk a len bs) a len := by
  obtain ⟨hoff, horig, _, _, _, _, _, hpad, _⟩ := w.putChunk_char a len bs hv.2
  refine ⟨?_, horig, hoff, hpad⟩
  rw [hoff, horig]
  have h1 := CdrWriter.padOf_dvd w.offset w.origin a hv.1 ha
  have h2 : a ∣ (w.offset + CdrWriter.padOf w.offset w.origin a + len - w.origin) := by
    have h3 : w.offset + CdrWriter.padOf w.offset w.origin a + len - w.origin
        = (w.offset + CdrWriter.padOf w.offset w.origin a - w.origin) + len := by
      have := hv.1
      omega
    rw [h3]
    exact Nat.dvd_add h1 hdvd
  obtain ⟨c, hc⟩ := h2
  rw [hc, Nat.mul_mod_right]

theorem int8_scalarPost (w : CdrWriter) (v : Int) (hv : w.Valid) :
    ScalarPost w (w.int8 v) 1 1 := by
  obtain ⟨hoff, horig, _, _, _, _, _, _⟩ := w.int8_char v hv.2
  have hpad : CdrWriter.padOf w.offset w.origin 1 = 0 := by
    simp [CdrWriter.padOf, Nat.mod_one]
  refine ⟨Nat.mod_one _, horig, by omega, ?_⟩
  intro i h1 h2
  omega

/-- C3: after each scalar write, with W the alignment size of the type (the
byte width, except 4 for 64-bit types under XCDR2 and 8 under XCDR1),
(offset - origin) mod W = 0, the padding bytes written are zero, and offset
advances by exactly the width plus the preceding padding. -/
theorem c3_scalar_alignment (w : CdrWriter) (hv : w.Valid) :
    (∀ v : Int, ScalarPost w (w.int8 v) 1 1) ∧
    (∀ v : Int, ScalarPost w (w.uint8 v) 1 1) ∧
    (∀ v : Int, ScalarPost w (w.int16 v) 2 2) ∧
    (∀ v : Int, ScalarPost w (w.uint16 v) 2 2) ∧
    (∀ v : Int, ScalarPost w (w.int32 v) 4 4) ∧
    (∀ v : Int, ScalarPost w (w.uint32 v) 4 4) ∧
    (∀ v : Int, ScalarPost w (w.int64 v) w.eightByteAlignment 8) ∧
    (∀ v : Int, ScalarPost w (w.uint64 v) w.eightByteAlignment 8) ∧
    (∀ v : Int, ScalarPost w (w.uint16BE v) 2 2) ∧
    (∀ v : Int, ScalarPost w (w.uint32BE v) 4 4) ∧
    (∀ v : Int, ScalarPost w (w.uint64BE v) w.eightByteAlignment 8) ∧
    (∀ bits : Nat, ScalarPost w (w.float32 bits) 4 4) ∧
    (∀ bits : Nat, ScalarPost w (w.float64 bits) w.eightByteAlignment 8) := by
  have h8 : 0 < w.eightByteAlignment ∧ w.eightByteAlignment ∣ 8 := by
    unfold CdrWriter.eightByteAlignment
    split <;> omega
  refine ⟨fun v => int8_scalarPost w v hv, fun v => int8_scalarPost w v hv,
    fun v => putChunk_scalarPost w 2 2 _ hv (by omega) (by omega),
    fun v => putChunk_scalarPost w 2 2 _ hv (by omega) (by omega),
    fun v => putChunk_scalarPost w 4 4 _ hv (by omega) (by omega),
    fun v => putChunk_scalarPost w 4 4 _ hv (by omega) (by omega),
    fun v => putChunk_scalarPost w w.eightByteAlignment 8 _ hv h8.1 h8.2,
    fun v => putChunk_scalarPost w w.eightByteAlignment 8 _ hv h8.1 h8.2,
    fun v => putChunk_scalarPost w 2 2 _ hv (by omega) (by omega),
    fun v => putChunk_scalarPost w 4 4 _ hv (by omega) (by omega),
    fun v => putChunk_scalarPost w w.eightByteAlignment 8 _ hv h8.1 h8.2,
    fun bits => putChunk_scalarPost w 4 4 _ hv (by omega) (by omega),
    fun bits => putChunk_scalarPost w w.eightByteAlignment 8 _ hv h8.1 h8.2⟩

theorem c3_witness :
    wCDRLE.Valid ∧ ScalarPost wCDRLE (wCDRLE.int16 5) 2 2 :=
  ⟨by decide, (c3_scalar_alignment wCDRLE (by decide)).2.2.1 5⟩

theorem getD_lt (l : List Nat) (n : Nat) (h : n < l.length) : l.getD n 0 = l[n] := by
  simp [List.getD_eq_getElem?_getD, List.getElem?_eq_getElem h]

theorem toBytesLE_mod (width v : Nat) :
    toBytesLE width (v % 2 ^ (8 * width)) = toBytesLE width v := by
  induction width generalizing v with
  | zero => rfl
  | succ n ih =>
    simp only [toBytesLE]
    have hsplit : (2 : Nat) ^ (8 * (n + 1)) = 256 * 2 ^ (8 * n) := by
      rw [show 8 * (n + 1) = 8 + 8 * n by ring, pow_add]
      norm_num
    have hdvd : (256 : Nat) ∣ 2 ^ (8 * (n + 1)) := by
      rw [hsplit]
      exact Dvd.intro _ rfl
    have h1 : v % 2 ^ (8 * (n + 1)) % 256 = v % 256 := Nat.mod_mod_of_dvd v hdvd
    have h2 : v % 2 ^ (8 * (n + 1)) / 256 = v / 256 % 2 ^ (8 * n) := by
      rw [hsplit, Nat.mod_mul_right_div_self]
    rw [h1, h2, ih (v / 256)]

theorem encodeUInt_mod (width v : Nat) (le : Bool) :
    encodeUInt width (v % 2 ^ (8 * width)) le = encodeUInt width v le := by
  cases le <;> simp [encodeUInt, toBytesLE_mod]

theorem toUnsigned_natCast (width n : Nat) :
    toUnsigned width ((n : Nat) : Int) = n % 2 ^ (8 * width) := by
  unfold toUnsigned
  norm_cast

theorem land_ffff (n : Nat) : n &&& 0xffff = n % 0x10000 := by
  have h := Nat.and_pow_two_sub_one_eq_mod n 16
  norm_num at h
  exact h

namespace CdrWriter

/-- The `n` buffer bytes starting at `pos`. -/
def bytesAt (w : CdrWriter) (pos n : Nat) : List Nat :=
  (List.range n).map fun j => w.buf (pos + j)

theorem bytesAt_eq {w : CdrWriter} {pos : Nat} {bs : List Nat}
    (h : ∀ j, j < bs.length → w.buf (pos + j) = bs.getD j 0) :
    w.bytesAt pos bs.length = bs := by
  apply List.ext_getElem
  · simp [bytesAt]
  · intro i h1 h2
    simp only [bytesAt, List.getElem_map, List.getElem_range]
    rw [h i h2, getD_lt _ _ h2]

theorem bytesAt_transfer {s t : CdrWriter} {pos n m : Nat}
    (h : ∀ i, i < m → t.buf i = s.buf i) (hlt : pos + n ≤ m) :
    t.bytesAt pos n = s.bytesAt pos n := by
  unfold bytesAt
  apply List.map_congr_left
  intro j hj
  rw [List.mem_range] at hj
  exact h _ (by omega)

theorem putChunk_aligned (u : CdrWriter) (a len : Nat) (bs : List Nat)
    (hv : u.Valid) (hpad : padOf u.offset u.origin a = 0) (hlen : bs.length = len) :
    (u.putChunk a len bs).offset = u.offset + len ∧
    (u.putChunk a len bs).origin = u.origin ∧
    (u.putChunk a len bs).littleEndian = u.littleEndian ∧
    (u.putChunk a len bs).isCDR2 = u.isCDR2 ∧
    (u.putChunk a len bs).Valid ∧
    (∀ i, i < u.offset → (u.putChunk a len bs).buf i = u.buf i) ∧
    (u.putChunk a len bs).bytesAt u.offset len = bs := by
  obtain ⟨hoff, horig, hle, _, hc2, hcap, hbelow, _, hbs⟩ := u.putChunk_char a len bs hv.2
  rw [hpad] at hoff hcap hbs
  simp only [Nat.add_zero] at hoff hcap hbs
  refine ⟨hoff, horig, hle, hc2, ?_, hbelow, ?_⟩
  · constructor
    · rw [hoff, horig]
      have := hv.1
      omega
    · omega
  · subst hlen
    exact bytesAt_eq hbs

theorem uint16_eq_putChunk (u : CdrWriter) (v : Int) :
    u.uint16 v = u.putChunk 2 2 (encodeUInt 2 (toUnsigned 2 v) u.littleEndian) := rfl

theorem uint32_eq_putChunk (u : CdrWriter) (v : Int) :
    u.uint32 v = u.putChunk 4 4 (encodeUInt 4 (toUnsigned 4 v) u.littleEndian) := rfl

end CdrWriter

namespace CdrWriter

theorem memberHeaderV1_short_char (w : CdrWriter) (mu : Bool) (id sz : Nat)
    (hv : w.Valid) (hid : id ≤ 0x3f00) (hsz : sz ≤ 0xffff) :
    (w.memberHeaderV1 mu id sz).offset = w.offset + padOf w.offset w.origin 4 + 4 ∧
    (w.memberHeaderV1 mu id sz).origin = (w.memberHeaderV1 mu id sz).offset ∧
    (∀ i, i < w.offset → (w.memberHeaderV1 mu id sz).buf i = w.buf i) ∧
    (∀ i, w.offset ≤ i → i < w.offset + padOf w.offset w.origin 4 →
      (w.memberHeaderV1 mu id sz).buf i = 0) ∧
    (w.memberHeaderV1 mu id sz).bytesAt (w.offset + padOf w.offset w.origin 4) 2
      = encodeUInt 2 ((if mu then 0x4000 else 0) ||| id) w.littleEndian ∧
    (w.memberHeaderV1 mu id sz).bytesAt (w.offset + padOf w.offset w.origin 4 + 2) 2
      = encodeUInt 2 sz w.littleEndian := by
  have hcond : (!(decide (0x3f00 < id) || decide (0xffff < sz))) = true := by
    simp only [Bool.not_eq_true', Bool.or_eq_false_iff, decide_eq_false_iff_not]
    omega
  set A := w.align 4 4 with hAdef
  set x : Int := (((if mu then 1 <<< 14 else 0) ||| id : Nat) : Int) with hxdef
  set y : Int := ((sz &&& 0xffff : Nat) : Int) with hydef
  have heq : w.memberHeaderV1 mu id sz =
      { (A.uint16 x).uint16 y with origin := ((A.uint16 x).uint16 y).offset } := by
    simp only [CdrWriter.memberHeaderV1]
    rw [if_pos hcond]
  have hA : A.Valid := by
    rw [hAdef]
    exact (w.preserves_align 4 4 hv).valid
  have hAoff : A.offset = w.offset + padOf w.offset w.origin 4 := by
    rw [hAdef]
    exact w.align_offset 4 4
  have hAorig : A.origin = w.origin := by
    rw [hAdef]
    exact w.align_origin 4 4
  have hAle : A.littleEndian = w.littleEndian := by
    rw [hAdef]
    exact w.align_littleEndian 4 4
  have hAbelow : ∀ i, i < w.offset → A.buf i = w.buf i := by
    intro i hi
    rw [hAdef]
    exact w.align_buf_below 4 4 i hv.2 hi
  have hApad : ∀ i, w.offset ≤ i → i < w.offset + padOf w.offset w.origin 4 →
      A.buf i = 0 := by
    intro i h1 h2
    rw [hAdef]
    exact w.align_buf_pad 4 4 i h1 h2
  have hd2 : (2 : Nat) ∣ (A.offset - A.origin) := by
    rw [hAoff, hAorig]
    exact dvd_trans (by norm_num) (padOf_dvd _ _ _ hv.1 (by omega))
  set s1 := A.uint16 x with hs1def
  have hs1eq : s1 = A.putChunk 2 2 (encodeUInt 2 (toUnsigned 2 x) A.littleEndian) := by
    rw [hs1def]
    exact A.uint16_eq_putChunk x
  have H1 := A.putChunk_aligned 2 2 (encodeUInt 2 (toUnsigned 2 x) A.littleEndian)
    hA (padOf_eq_zero _ _ 2 hd2) (encodeUInt_length _ _ _)
  rw [← hs1eq] at H1
  obtain ⟨h1off, h1orig, h1le, _, h1valid, h1below, h1bytes⟩ := H1
  have hd2' : (2 : Nat) ∣ (s1.offset - s1.origin) := by
    rw [h1off, h1orig]
    rw [show A.offset + 2 - A.origin = (A.offset - A.origin) + 2 from by
      have := hA.1
      omega]
    exact dvd_add hd2 dvd_rfl
  set s2 := s1.uint16 y with hs2def
  have hs2eq : s2 = s1.putChunk 2 2 (encodeUInt 2 (toUnsigned 2 y) s1.littleEndian) := by
    rw [hs2def]
    exact s1.uint16_eq_putChunk y
  have H2 := s1.putChunk_aligned 2 2 (encodeUInt 2 (toUnsigned 2 y) s1.littleEndian)
    h1valid (padOf_eq_zero _ _ 2 hd2') (encodeUInt_length _ _ _)
  rw [← hs2eq] at H2
  obtain ⟨h2off, h2orig, h2le, _, h2valid, h2below, h2bytes⟩ := H2
  clear_value s2 s1 A x y
  rw [heq]
  refine ⟨?_, rfl, ?_, ?_, ?_, ?_⟩
  · show s2.offset = w.offset + padOf w.offset w.origin 4 + 4
    rw [h2off, h1off, hAoff]
  · intro i hi
    show s2.buf i = w.buf i
    rw [h2below i (by rw [h1off, hAoff]; omega), h1below i (by rw [hAoff]; omega),
      hAbelow i hi]
  · intro i hge hlt
    show s2.buf i = 0
    rw [h2below i (by rw [h1off, hAoff]; omega), h1below i (by rw [hAoff]; omega),
      hApad i hge hlt]
  · show s2.bytesAt (w.offset + padOf w.offset w.origin 4) 2 = _
    rw [← hAoff, bytesAt_transfer h2below (by rw [h1off]), h1bytes, hAle, hxdef,
      toUnsigned_natCast, encodeUInt_mod]
    rfl
  · show s2.bytesAt (w.offset + padOf w.offset w.origin 4 + 2) 2 = _
    rw [show w.offset + padOf w.offset w.origin 4 + 2 = s1.offset from by
      rw [h1off, hAoff]]
    rw [h2bytes, h1le, hAle, hydef, toUnsigned_natCast, land_ffff]
    rw [show sz % 0x10000 % 2 ^ (8 * 2) = sz % 2 ^ (8 * 2) from by norm_num]
    exact encodeUInt_mod 2 sz w.littleEndian

end CdrWriter

namespace CdrWriter

theorem memberHeaderV1_ext_char (w : CdrWriter) (mu : Bool) (id sz : Nat)
    (hv : w.Valid) (hbig : 0x3f00 < id ∨ 0xffff < sz) :
    (w.memberHeaderV1 mu id sz).offset = w.offset + padOf w.offset w.origin 4 + 12 ∧
    (w.memberHeaderV1 mu id sz).origin = (w.memberHeaderV1 mu id sz).offset ∧
    (∀ i, i < w.offset → (w.memberHeaderV1 mu id sz).buf i = w.buf i) ∧
    (∀ i, w.offset ≤ i → i < w.offset + padOf w.offset w.origin 4 →
      (w.memberHeaderV1 mu id sz).buf i = 0) ∧
    (w.memberHeaderV1 mu id sz).bytesAt (w.offset + padOf w.offset w.origin 4) 2
      = encodeUInt 2 ((if mu then 0x4000 else 0) ||| EXTENDED_PID) w.littleEndian ∧
    (w.memberHeaderV1 mu id sz).bytesAt (w.offset + padOf w.offset w.origin 4 + 2) 2
      = encodeUInt 2 8 w.littleEndian ∧
    (w.memberHeaderV1 mu id sz).bytesAt (w.offset + padOf w.offset w.origin 4 + 4) 4
      = encodeUInt 4 id w.littleEndian ∧
    (w.memberHeaderV1 mu id sz).bytesAt (w.offset + padOf w.offset w.origin 4 + 8) 4
      = encodeUInt 4 sz w.littleEndian := by
  have hcond : (!(decide (0x3f00 < id) || decide (0xffff < sz))) = false := by
    rcases hbig with h | h <;> simp [h]
  set A := w.align 4 4 with hAdef
  set x : Int := (((if mu then 1 <<< 14 else 0) ||| EXTENDED_PID : Nat) : Int) with hxdef
  have heq : w.memberHeaderV1 mu id sz =
      { (((A.uint16 x).uint16 8).uint32 ((id : Nat) : Int)).uint32 ((sz : Nat) : Int) with
        origin := ((((A.uint16 x).uint16 8).uint32 ((id : Nat) : Int)).uint32
          ((sz : Nat) : Int)).offset } := by
    simp only [CdrWriter.memberHeaderV1]
    rw [hcond]
    rfl
  have hA : A.Valid := by
    rw [hAdef]
    exact (w.preserves_align 4 4 hv).valid
  have hAoff : A.offset = w.offset + padOf w.offset w.origin 4 := by
    rw [hAdef]
    exact w.align_offset 4 4
  have hAorig : A.origin = w.origin := by
    rw [hAdef]
    exact w.align_origin 4 4
  have hAle : A.littleEndian = w.littleEndian := by
    rw [hAdef]
    exact w.align_littleEndian 4 4
  have hAbelow : ∀ i, i < w.offset → A.buf i = w.buf i := by
    intro i hi
    rw [hAdef]
    exact w.align_buf_below 4 4 i hv.2 hi
  have hApad : ∀ i, w.offset ≤ i → i < w.offset + padOf w.offset w.origin 4 →
      A.buf i = 0 := by
    intro i h1 h2
    rw [hAdef]
    exact w.align_buf_pad 4 4 i h1 h2
  have hd4 : (4 : Nat) ∣ (A.offset - A.origin) := by
    rw [hAoff, hAorig]
    exact padOf_dvd _ _ _ hv.1 (by omega)
  have hd2 : (2 : Nat) ∣ (A.offset - A.origin) := dvd_trans (by norm_num) hd4
  set s1 := A.uint16 x with hs1def
  have hs1eq : s1 = A.putChunk 2 2 (encodeUInt 2 (toUnsigned 2 x) A.littleEndian) := by
    rw [hs1def]
    exact A.uint16_eq_putChunk x
  have H1 := A.putChunk_aligned 2 2 (encodeUInt 2 (toUnsigned 2 x) A.littleEndian)
    hA (padOf_eq_zero _ _ 2 hd2) (encodeUInt_length _ _ _)
  rw [← hs1eq] at H1
  obtain ⟨h1off, h1orig, h1le, _, h1valid, h1below, h1bytes⟩ := H1
  have hd2' : (2 : Nat) ∣ (s1.offset - s1.origin) := by
    rw [h1off, h1orig]
    rw [show A.offset + 2 - A.origin = (A.offset - A.origin) + 2 from by
      have := hA.1
      omega]
    exact dvd_add hd2 dvd_rfl
  set s2 := s1.uint16 8 with hs2def
  have hs2eq : s2 = s1.putChunk 2 2 (encodeUInt 2 (toUnsigned 2 8) s1.littleEndian) := by
    rw [hs2def]
    exact s1.uint16_eq_putChunk 8
  have H2 := s1.putChunk_aligned 2 2 (encodeUInt 2 (toUnsigned 2 8) s1.littleEndian)
    h1valid (padOf_eq_zero _ _ 2 hd2') (encodeUInt_length _ _ _)
  rw [← hs2eq] at H2
  obtain ⟨h2off, h2orig, h2le, _, h2valid, h2below, h2bytes⟩ := H2
  have hd4' : (4 : Nat) ∣ (s2.offset - s2.origin) := by
    rw [h2off, h1off, h2orig, h1orig]
    rw [show A.offset + 2 + 2 - A.origin = (A.offset - A.origin) + 4 from by
      have := hA.1
      omega]
    exact dvd_add hd4 dvd_rfl
  set s3 := s2.uint32 ((id : Nat) : Int) with hs3def
  have hs3eq : s3 = s2.putChunk 4 4
      (encodeUInt 4 (toUnsigned 4 ((id : Nat) : Int)) s2.littleEndian) := by
    rw [hs3def]
    exact s2.uint32_eq_putChunk _
  have H3 := s2.putChunk_aligned 4 4
    (encodeUInt 4 (toUnsigned 4 ((id : Nat) : Int)) s2.littleEndian)
    h2valid (padOf_eq_zero _ _ 4 hd4') (encodeUInt_length _ _ _)
  rw [← hs3eq] at H3
  obtain ⟨h3off, h3orig, h3le, _, h3valid, h3below, h3bytes⟩ := H3
  have hd4'' : (4 : Nat) ∣ (s3.offset - s3.origin) := by
    rw [h3off, h2off, h1off, h3orig, h2orig, h1orig]
    rw [show A.offset + 2 + 2 + 4 - A.origin = (A.offset - A.origin) + 8 from by
      have := hA.1
      omega]
    exact dvd_add hd4 (by norm_num)
  set s4 := s3.uint32 ((sz : Nat) : Int) with hs4def
  have hs4eq : s4 = s3.putChunk 4 4
      (encodeUInt 4 (toUnsigned 4 ((sz : Nat) : Int)) s3.littleEndian) := by
    rw [hs4def]
    exact s3.uint32_eq_putChunk _
  have H4 := s3.putChunk_aligned 4 4
    (encodeUInt 4 (toUnsigned 4 ((sz : Nat) : Int)) s3.littleEndian)
    h3valid (padOf_eq_zero _ _ 4 hd4'') (encodeUInt_length _ _ _)
  rw [← hs4eq] at H4
  obtain ⟨h4off, h4orig, h4le, _, h4valid, h4below, h4bytes⟩ := H4
  clear_value s4 s3 s2 s1 A x
  rw [heq]
  refine ⟨?_, rfl, ?_, ?_, ?_, ?_, ?_, ?_⟩
  · show s4.offset = w.offset + padOf w.offset w.origin 4 + 12
    rw [h4off, h3off, h2off, h1off, hAoff]
  · intro i hi
    show s4.buf i = w.buf i
    rw [h4below i (by rw [h3off, h2off, h1off, hAoff]; omega),
      h3below i (by rw [h2off, h1off, hAoff]; omega),
      h2below i (by rw [h1off, hAoff]; omega),
      h1below i (by rw [hAoff]; omega), hAbelow i hi]
  · intro i hge hlt
    show s4.buf i = 0
    rw [h4below i (by rw [h3off, h2off, h1off, hAoff]; omega),
      h3below i (by rw [h2off, h1off, hAoff]; omega),
      h2below i (by rw [h1off, hAoff]; omega),
      h1below i (by rw [hAoff]; omega), hApad i hge hlt]
  · show s4.bytesAt (w.offset + padOf w.offset w.origin 4) 2 = _
    rw [← hAoff]
    rw [bytesAt_transfer h4below (by rw [h3off, h2off, h1off]; omega)]
    rw [bytesAt_transfer h3below (by rw [h2off, h1off]; omega)]
    rw [bytesAt_transfer h2below (by rw [h1off])]
    rw [h1bytes, hAle, hxdef, toUnsigned_natCast, encodeUInt_mod]
    rfl
  · show s4.bytesAt (w.offset + padOf w.offset w.origin 4 + 2) 2 = _
    rw [show w.offset + padOf w.offset w.origin 4 + 2 = s1.offset from by
      rw [h1off, hAoff]]
    rw [bytesAt_transfer h4below (by simp only [h3off, h2off, h1off]; omega)]
    rw [bytesAt_transfer h3below (by simp only [h2off, h1off]; omega)]
    rw [h2bytes, h1le, hAle]
    congr 1
  · show s4.bytesAt (w.offset + padOf w.offset w.origin 4 + 4) 4 = _
    rw [show w.offset + padOf w.offset w.origin 4 + 4 = s2.offset from by
      rw [h2off, h1off, hAoff]]
    rw [bytesAt_transfer h4below (by simp only [h3off]; omega)]
    rw [h3bytes, h2le, h1le, hAle, toUnsigned_natCast, encodeUInt_mod]
  · show s4.bytesAt (w.offset + padOf w.offset w.origin 4 + 8) 4 = _
    rw [show w.offset + padOf w.offset w.origin 4 + 8 = s3.offset from by
      rw [h3off, h2off, h1off, hAoff]]
    rw [h4bytes, h3le, h2le, h1le, hAle, toUnsigned_natCast, encodeUInt_mod]

end CdrWriter

/-- C5: on an XCDR1 writer, emHeader aligns to 4 and then, when id ≤ 0x3F00
and objectSize ≤ 0xFFFF, writes the 4-byte short PID
uint16((mustUnderstand ? 0x4000 : 0) | id) followed by uint16(objectSize);
otherwise it writes the 12-byte extended form
uint16((mustUnderstand ? 0x4000 : 0) | EXTENDED_PID), uint16(8), uint32(id),
uint32(objectSize); and in both cases it then sets origin to the current
offset so that the member body aligns relative to its own start. -/
theorem c5_emheader_v1 (w : CdrWriter) (mu : Bool) (id sz : Nat) (lc : Option Nat)
    (hc : w.isCDR2 = false) (hv : w.Valid) :
    (id ≤ 0x3f00 ∧ sz ≤ 0xffff →
      ∃ w', w.emHeader mu id sz lc = .ok w' ∧
        w'.offset = w.offset + CdrWriter.padOf w.offset w.origin 4 + 4 ∧
        w'.origin = w'.offset ∧
        (∀ i, i < w.offset → w'.buf i = w.buf i) ∧
        (∀ i, w.offset ≤ i → i < w.offset + CdrWriter.padOf w.offset w.origin 4 →
          w'.buf i = 0) ∧
        w'.bytesAt (w.offset + CdrWriter.padOf w.offset w.origin 4) 2
          = encodeUInt 2 ((if mu then 0x4000 else 0) ||| id) w.littleEndian ∧
        w'.bytesAt (w.offset + CdrWriter.padOf w.offset w.origin 4 + 2) 2
          = encodeUInt 2 sz w.littleEndian) ∧
    (0x3f00 < id ∨ 0xffff < sz →
      ∃ w', w.emHeader mu id sz lc = .ok w' ∧
        w'.offset = w.offset + CdrWriter.padOf w.offset w.origin 4 + 12 ∧
        w'.origin = w'.offset ∧
        (∀ i, i < w.offset → w'.buf i = w.buf i) ∧
        (∀ i, w.offset ≤ i → i < w.offset + CdrWriter.padOf w.offset w.origin 4 →
          w'.buf i = 0) ∧
        w'.bytesAt (w.offset + CdrWriter.padOf w.offset w.origin 4) 2
          = encodeUInt 2 ((if mu then 0x4000 else 0) ||| EXTENDED_PID) w.littleEndian ∧
        w'.bytesAt (w.offset + CdrWriter.padOf w.offset w.origin 4 + 2) 2
          = encodeUInt 2 8 w.littleEndian ∧
        w'.bytesAt (w.offset + CdrWriter.padOf w.offset w.origin 4 + 4) 4
          = encodeUInt 4 id w.littleEndian ∧
        w'.bytesAt (w.offset + CdrWriter.padOf w.offset w.origin 4 + 8) 4
          = encodeUInt 4 sz w.littleEndian) := by
  have hdisp : w.emHeader mu id sz lc = .ok (w.memberHeaderV1 mu id sz) := by
    simp [CdrWriter.emHeader, hc]
  constructor
  · intro hshort
    obtain ⟨h1, h2, h3, h4, h5, h6⟩ :=
      w.memberHeaderV1_short_char mu id sz hv hshort.1 hshort.2
    exact ⟨w.memberHeaderV1 mu id sz, hdisp, h1, h2, h3, h4, h5, h6⟩
  · intro hbig
    obtain ⟨h1, h2, h3, h4, h5, h6, h7, h8⟩ :=
      w.memberHeaderV1_ext_char mu id sz hv hbig
    exact ⟨w.memberHeaderV1 mu id sz, hdisp, h1, h2, h3, h4, h5, h6, h7, h8⟩

theorem c5_witness :
    ∃ w', wCDRLE.emHeader true 0x12 4 none = .ok w' ∧
      w'.offset = wCDRLE.offset + CdrWriter.padOf wCDRLE.offset wCDRLE.origin 4 + 4 ∧
      w'.origin = w'.offset ∧
      (∀ i, i < wCDRLE.offset → w'.buf i = wCDRLE.buf i) ∧
      (∀ i, wCDRLE.offset ≤ i →
        i < wCDRLE.offset + CdrWriter.padOf wCDRLE.offset wCDRLE.origin 4 →
        w'.buf i = 0) ∧
      w'.bytesAt (wCDRLE.offset + CdrWriter.padOf wCDRLE.offset wCDRLE.origin 4) 2
        = encodeUInt 2 ((if true then 0x4000 else 0) ||| 0x12) wCDRLE.littleEndian ∧
      w'.bytesAt (wCDRLE.offset + CdrWriter.padOf wCDRLE.offset wCDRLE.origin 4 + 2) 2
        = encodeUInt 2 4 wCDRLE.littleEndian :=
  (c5_emheader_v1 wCDRLE true 0x12 4 none (by decide) (by decide)).1 (by decide)

namespace CdrWriter

theorem uint32_char (u : CdrWriter) (v : Int) (hv : u.Valid) :
    (u.uint32 v).offset = u.offset + padOf u.offset u.origin 4 + 4 ∧
    (u.uint32 v).origin = u.origin ∧
    (u.uint32 v).littleEndian = u.littleEndian ∧
    (u.uint32 v).Valid ∧
    (∀ i, i < u.offset → (u.uint32 v).buf i = u.buf i) ∧
    (u.uint32 v).bytesAt (u.offset + padOf u.offset u.origin 4) 4
      = encodeUInt 4 (toUnsigned 4 v) u.littleEndian ∧
    4 ∣ ((u.uint32 v).offset - (u.uint32 v).origin) := by
  have hequ : u.uint32 v
      = u.putChunk 4 4 (encodeUInt 4 (toUnsigned 4 v) u.littleEndian) :=
    u.uint32_eq_putChunk v
  obtain ⟨hoff, horig, hle, _, _, hcap, hbelow, _, hbs⟩ :=
    u.putChunk_char 4 4 (encodeUInt 4 (toUnsigned 4 v) u.littleEndian) hv.2
  rw [← hequ] at hoff horig hle hcap hbelow hbs
  have hbytes : (u.uint32 v).bytesAt (u.offset + padOf u.offset u.origin 4) 4
      = encodeUInt 4 (toUnsigned 4 v) u.littleEndian := by
    have h := @bytesAt_eq (u.uint32 v) (u.offset + padOf u.offset u.origin 4)
      (encodeUInt 4 (toUnsigned 4 v) u.littleEndian) (fun j hj => hbs j hj)
    rw [encodeUInt_length] at h
    exact h
  refine ⟨hoff, horig, hle, ⟨?_, ?_⟩, hbelow, hbytes, ?_⟩
  · rw [hoff, horig]
    have := hv.1
    omega
  · omega
  · rw [hoff, horig]
    rw [show u.offset + padOf u.offset u.origin 4 + 4 - u.origin
        = (u.offset + padOf u.offset u.origin 4 - u.origin) + 4 from by
      have := hv.1
      omega]
    exact dvd_add (padOf_dvd _ _ _ hv.1 (by omega)) dvd_rfl

theorem uint32_uint32_char (u : CdrWriter) (x y : Int) (hv : u.Valid) :
    ((u.uint32 x).uint32 y).offset = u.offset + padOf u.offset u.origin 4 + 8 ∧
    ((u.uint32 x).uint32 y).origin = u.origin ∧
    (∀ i, i < u.offset → ((u.uint32 x).uint32 y).buf i = u.buf i) ∧
    ((u.uint32 x).uint32 y).bytesAt (u.offset + padOf u.offset u.origin 4) 4
      = encodeUInt 4 (toUnsigned 4 x) u.littleEndian ∧
    ((u.uint32 x).uint32 y).bytesAt (u.offset + padOf u.offset u.origin 4 + 4) 4
      = encodeUInt 4 (toUnsigned 4 y) u.littleEndian := by
  obtain ⟨h1off, h1orig, h1le, h1valid, h1below, h1bytes, h1dvd⟩ := uint32_char u x hv
  have hpad0 : padOf (u.uint32 x).offset (u.uint32 x).origin 4 = 0 :=
    padOf_eq_zero _ _ _ h1dvd
  obtain ⟨h2off, h2orig, h2le, h2valid, h2below, h2bytes, _⟩ :=
    uint32_char (u.uint32 x) y h1valid
  rw [hpad0] at h2off h2bytes
  simp only [Nat.add_zero] at h2off h2bytes
  refine ⟨?_, ?_, ?_, ?_, ?_⟩
  · rw [h2off, h1off]
  · rw [h2orig, h1orig]
  · intro i hi
    rw [h2below i (by simp only [h1off]; omega), h1below i hi]
  · rw [bytesAt_transfer h2below (by simp only [h1off]; omega), h1bytes]
  · rw [show u.offset + padOf u.offset u.origin 4 + 4 = (u.uint32 x).offset
      from h1off.symm]
    rw [h2bytes, h1le]

end CdrWriter

/-- C4: on an XCDR2 writer, emHeader rejects id > 0x0FFFFFFF, otherwise writes
uint32((mustUnderstand ? 0x80000000 : 0) | (finalLengthCode << 28) | id) with
finalLengthCode the supplied code, or else the smallest among 0-4 chosen by
getLengthCodeForObjectSize; then length codes 0-3 validate objectSize against
the fixed sizes 1/2/4/8, codes 4 and 5 write uint32(objectSize), code 6
requires objectSize % 4 == 0 and writes uint32(objectSize >> 2), and code 7
requires objectSize % 8 == 0 and writes uint32(objectSize >> 3). -/
theorem c4_emheader_v2 (w : CdrWriter) (mu : Bool) (id sz : Nat) (lc : Option Nat)
    (hc : w.isCDR2 = true) (hv : w.Valid) :
    (getLengthCodeForObjectSize 1 = 0 ∧ getLengthCodeForObjectSize 2 = 1 ∧
      getLengthCodeForObjectSize 4 = 2 ∧ getLengthCodeForObjectSize 8 = 3 ∧
      ∀ s, s ≠ 1 → s ≠ 2 → s ≠ 4 → s ≠ 8 → getLengthCodeForObjectSize s = 4) ∧
    (0x0fffffff < id → ∃ m, w.emHeader mu id sz lc = .error (m, w)) ∧
    (id ≤ 0x0fffffff →
      (lc.getD (getLengthCodeForObjectSize sz) ≤ 3 →
        (sz = lengthCodeToObjectSizes (lc.getD (getLengthCodeForObjectSize sz)) →
          ∃ w', w.emHeader mu id sz lc = .ok w' ∧
            w'.offset = w.offset + CdrWriter.padOf w.offset w.origin 4 + 4 ∧
            w'.origin = w.origin ∧
            w'.bytesAt (w.offset + CdrWriter.padOf w.offset w.origin 4) 4
              = encodeUInt 4 ((if mu then 0x80000000 else 0) |||
                  (lc.getD (getLengthCodeForObjectSize sz) <<< 28) ||| id)
                  w.littleEndian) ∧
        (sz ≠ lengthCodeToObjectSizes (lc.getD (getLengthCodeForObjectSize sz)) →
          ∃ e, w.emHeader mu id sz lc = .error e)) ∧
      ((lc.getD (getLengthCodeForObjectSize sz) = 4 ∨
        lc.getD (getLengthCodeForObjectSize sz) = 5) →
        ∃ w', w.emHeader mu id sz lc = .ok w' ∧
          w'.offset = w.offset + CdrWriter.padOf w.offset w.origin 4 + 8 ∧
          w'.origin = w.origin ∧
          w'.bytesAt (w.offset + CdrWriter.padOf w.offset w.origin 4) 4
            = encodeUInt 4 ((if mu then 0x80000000 else 0) |||
                (lc.getD (getLengthCodeForObjectSize sz) <<< 28) ||| id)
                w.littleEndian ∧
          w'.bytesAt (w.offset + CdrWriter.padOf w.offset w.origin 4 + 4) 4
            = encodeUInt 4 sz w.littleEndian) ∧
      (lc.getD (getLengthCodeForObjectSize sz) = 6 →
        (sz % 4 = 0 →
          ∃ w', w.emHeader mu id sz lc = .ok w' ∧
            w'.offset = w.offset + CdrWriter.padOf w.offset w.origin 4 + 8 ∧
            w'.origin = w.origin ∧
            w'.bytesAt (w.offset + CdrWriter.padOf w.offset w.origin 4) 4
              = encodeUInt 4 ((if mu then 0x80000000 else 0) |||
                  (lc.getD (getLengthCodeForObjectSize sz) <<< 28) ||| id)
                  w.littleEndian ∧
            w'.bytesAt (w.offset + CdrWriter.padOf w.offset w.origin 4 + 4) 4
              = encodeUInt 4 (toUnsigned 4 (jsShr sz 2)) w.littleEndian) ∧
        (sz % 4 ≠ 0 → ∃ e, w.emHeader mu id sz lc = .error e)) ∧
      (lc.getD (getLengthCodeForObjectSize sz) = 7 →
        (sz % 8 = 0 →
          ∃ w', w.emHeader mu id sz lc = .ok w' ∧
            w'.offset = w.offset + CdrWriter.padOf w.offset w.origin 4 + 8 ∧
            w'.origin = w.origin ∧
            w'.bytesAt (w.offset + CdrWriter.padOf w.offset w.origin 4) 4
              = encodeUInt 4 ((if mu then 0x80000000 else 0) |||
                  (lc.getD (getLengthCodeForObjectSize sz) <<< 28) ||| id)
                  w.littleEndian ∧
            w'.bytesAt (w.offset + CdrWriter.padOf w.offset w.origin 4 + 4) 4
              = encodeUInt 4 (toUnsigned 4 (jsShr sz 3)) w.littleEndian) ∧
        (sz % 8 ≠ 0 → ∃ e, w.emHeader mu id sz lc = .error e))) := by
  have hdisp : w.emHeader mu id sz lc = w.memberHeaderV2 mu id sz lc := by
    simp [CdrWriter.emHeader, hc]
  refine ⟨⟨rfl, rfl, rfl, rfl, ?_⟩, ?_, ?_⟩
  · intro s h1 h2 h4 h8
    unfold getLengthCodeForObjectSize
    rw [if_neg h1, if_neg h2, if_neg h4, if_neg h8]
  · intro hbig
    refine ⟨"Member ID " ++ toString id ++ " is too large. Max value is 268435455", ?_⟩
    rw [hdisp]
    simp only [CdrWriter.memberHeaderV2]
    rw [if_pos hbig]
  · intro hid
    refine ⟨fun hF3 => ⟨?_, ?_⟩, ?_, fun hF6 => ⟨?_, ?_⟩, fun hF7 => ⟨?_, ?_⟩⟩
    · -- length code 0-3, matching size
      intro hsz
      have heq : w.memberHeaderV2 mu id sz lc = .ok (w.uint32
          (((((if mu then 1 <<< 31 else 0) |||
            (lc.getD (getLengthCodeForObjectSize sz) <<< 28) ||| id : Nat)) : Int))) := by
        simp only [CdrWriter.memberHeaderV2]
        rw [if_neg (by omega), if_pos hF3, if_neg (by omega)]
      obtain ⟨hoff, horig, _, _, _, hbytes, _⟩ := CdrWriter.uint32_char w
        (((((if mu then 1 <<< 31 else 0) |||
          (lc.getD (getLengthCodeForObjectSize sz) <<< 28) ||| id : Nat)) : Int)) hv
      refine ⟨_, by rw [hdisp, heq], hoff, horig, ?_⟩
      rw [hbytes, toUnsigned_natCast, encodeUInt_mod]
      rfl
    · -- length code 0-3, size mismatch
      intro hsz
      exact ⟨_, by
        rw [hdisp]
        simp only [CdrWriter.memberHeaderV2]
        rw [if_neg (by omega), if_pos hF3, if_pos hsz]⟩
    · -- length code 4 or 5
      intro hF45
      have heq : w.memberHeaderV2 mu id sz lc = .ok ((w.uint32
          (((((if mu then 1 <<< 31 else 0) |||
            (lc.getD (getLengthCodeForObjectSize sz) <<< 28) ||| id : Nat)) : Int))).uint32
          ((sz : Nat) : Int)) := by
        simp only [CdrWriter.memberHeaderV2]
        rw [if_neg (by omega), if_neg (by omega), if_pos hF45]
      obtain ⟨hoff, horig, _, hbytes1, hbytes2⟩ := CdrWriter.uint32_uint32_char w
        (((((if mu then 1 <<< 31 else 0) |||
          (lc.getD (getLengthCodeForObjectSize sz) <<< 28) ||| id : Nat)) : Int))
        ((sz : Nat) : Int) hv
      refine ⟨_, by rw [hdisp, heq], hoff, horig, ?_, ?_⟩
      · rw [hbytes1, toUnsigned_natCast, encodeUInt_mod]
        rfl
      · rw [hbytes2, toUnsigned_natCast, encodeUInt_mod]
    · -- length code 6, size multiple of 4
      intro hmod
      have heq : w.memberHeaderV2 mu id sz lc = .ok ((w.uint32
          (((((if mu then 1 <<< 31 else 0) |||
            (lc.getD (getLengthCodeForObjectSize sz) <<< 28) ||| id : Nat)) : Int))).uint32
          (jsShr sz 2)) := by
        simp only [CdrWriter.memberHeaderV2]
        rw [if_neg (by omega), if_neg (by omega), if_neg (by omega), if_pos hF6,
          if_neg (by omega)]
      obtain ⟨hoff, horig, _, hbytes1, hbytes2⟩ := CdrWriter.uint32_uint32_char w
        (((((if mu then 1 <<< 31 else 0) |||
          (lc.getD (getLengthCodeForObjectSize sz) <<< 28) ||| id : Nat)) : Int))
        (jsShr sz 2) hv
      refine ⟨_, by rw [hdisp, heq], hoff, horig, ?_, hbytes2⟩
      rw [hbytes1, toUnsigned_natCast, encodeUInt_mod]
      rfl
    · -- length code 6, size not a multiple of 4
      intro hmod
      exact ⟨_, by
        rw [hdisp]
        simp only [CdrWriter.memberHeaderV2]
        rw [if_neg (by omega), if_neg (by omega), if_neg (by omega), if_pos hF6,
          if_pos hmod]⟩
    · -- length code 7, size multiple of 8
      intro hmod
      have heq : w.memberHeaderV2 mu id sz lc = .ok ((w.uint32
          (((((if mu then 1 <<< 31 else 0) |||
            (lc.getD (getLengthCodeForObjectSize sz) <<< 28) ||| id : Nat)) : Int))).uint32
          (jsShr sz 3)) := by
        simp only [CdrWriter.memberHeaderV2]
        rw [if_neg (by omega), if_neg (by omega), if_neg (by omega), if_neg (by omega),
          if_pos hF7, if_neg (by omega)]
      obtain ⟨hoff, horig, _, hbytes1, hbytes2⟩ := CdrWriter.uint32_uint32_char w
        (((((if mu then 1 <<< 31 else 0) |||
          (lc.getD (getLengthCodeForObjectSize sz) <<< 28) ||| id : Nat)) : Int))
        (jsShr sz 3) hv
      refine ⟨_, by rw [hdisp, heq], hoff, horig, ?_, hbytes2⟩
      rw [hbytes1, toUnsigned_natCast, encodeUInt_mod]
      rfl
    · -- length code 7, size not a multiple of 8
      intro hmod
      exact ⟨_, by
        rw [hdisp]
        simp only [CdrWriter.memberHeaderV2]
        rw [if_neg (by omega), if_neg (by omega), if_neg (by omega), if_neg (by omega),
          if_pos hF7, if_pos hmod]⟩

theorem c4_witness :
    ∃ w', wCDR2LE.emHeader false 0x1234 12 (some 6) = .ok w' ∧
      w'.offset = wCDR2LE.offset + CdrWriter.padOf wCDR2LE.offset wCDR2LE.origin 4 + 8 ∧
      w'.origin = wCDR2LE.origin ∧
      w'.bytesAt (wCDR2LE.offset + CdrWriter.padOf wCDR2LE.offset wCDR2LE.origin 4) 4
        = encodeUInt 4 ((if false then 0x80000000 else 0) |||
            ((some 6).getD (getLengthCodeForObjectSize 12) <<< 28) ||| 0x1234)
            wCDR2LE.littleEndian ∧
      w'.bytesAt (wCDR2LE.offset + CdrWriter.padOf wCDR2LE.offset wCDR2LE.origin 4 + 4) 4
        = encodeUInt 4 (toUnsigned 4 (jsShr 12 2)) wCDR2LE.littleEndian :=
  (((c4_emheader_v2 wCDR2LE false 0x1234 12 (some 6) (by decide) (by decide)).2.2
    (by decide)).2.2.1 (by decide)).1 (by decide)

/-- Carried writer state of a thrown writer exception, for stating claims
about the error path. -/
def errState : Except (String × CdrWriter) CdrWriter → Option CdrWriter
  | .error (_, we) => some we
  | .ok _ => none

/-- C6 (counterexample): on a CDR2_LE writer at offset 4,
emHeader(false, 0, 1, lengthCode=2) throws (length code 2 requires objectSize
4), yet the carried object state has offset 8: the 4-byte EMHEADER word was
already written before the throw, so the cursor is not unchanged. -/
theorem c6_counterexample :
    (errState (wCDR2LE.emHeader false 0 1 (some 2))).map CdrWriter.offset = some 8 ∧
    wCDR2LE.offset = 4 := by
  constructor
  · decide
  · decide

/-- C6 (amended): IdTooLarge is raised before anything is written and leaves
the writer unchanged; the BadLengthCode family (size inconsistent with length
code 0-3, 6 or 7, or a length code above 7) is raised only after the 4-byte
EMHEADER word has been written, so the carried state is exactly the writer
after uint32(header), with offset advanced by the alignment padding plus 4; an
XCDR1 emHeader never throws. -/
theorem c6_error_state (w : CdrWriter) (mu : Bool) (id sz : Nat) (lc : Option Nat)
    (hv : w.Valid) :
    (w.isCDR2 = true → 0x0fffffff < id →
      w.emHeader mu id sz lc =
        .error ("Member ID " ++ toString id ++ " is too large. Max value is 268435455",
          w)) ∧
    (w.isCDR2 = true → ∀ m we, w.emHeader mu id sz lc = .error (m, we) →
      id ≤ 0x0fffffff →
      we = w.uint32 ((((if mu then 1 <<< 31 else 0) |||
        (lc.getD (getLengthCodeForObjectSize sz) <<< 28) ||| id : Nat)) : Int) ∧
      we.offset = w.offset + CdrWriter.padOf w.offset w.origin 4 + 4) ∧
    (w.isCDR2 = false → ∃ w', w.emHeader mu id sz lc = .ok w') := by
  refine ⟨?_, ?_, ?_⟩
  · intro hc hbig
    simp only [CdrWriter.emHeader, CdrWriter.memberHeaderV2, hc, if_true]
    rw [if_pos hbig]
  · intro hc m we h hid
    simp only [CdrWriter.emHeader, CdrWriter.memberHeaderV2, hc, if_true] at h
    have hoff := (CdrWriter.uint32_char w ((((if mu then 1 <<< 31 else 0) |||
      (lc.getD (getLengthCodeForObjectSize sz) <<< 28) ||| id : Nat)) : Int) hv).1
    rw [if_neg (by omega)] at h
    split at h
    · split at h
      · injection h with h2
        injection h2 with hm hwe
        subst hwe
        exact ⟨rfl, hoff⟩
      · simp at h
    · split at h
      · simp at h
      · split at h
        · split at h
          · injection h with h2
            injection h2 with hm hwe
            subst hwe
            exact ⟨rfl, hoff⟩
          · simp at h
        · split at h
          · split at h
            · injection h with h2
              injection h2 with hm hwe
              subst hwe
              exact ⟨rfl, hoff⟩
            · simp at h
          · injection h with h2
            injection h2 with hm hwe
            subst hwe
            exact ⟨rfl, hoff⟩
  · intro hc
    exact ⟨w.memberHeaderV1 mu id sz, by simp [CdrWriter.emHeader, hc]⟩

theorem c6_witness :
    wCDR2LE.emHeader true 0x10000000 4 none =
      .error ("Member ID " ++ toString (0x10000000 : Nat) ++
        " is too large. Max value is 268435455", wCDR2LE) :=
  (c6_error_state wCDR2LE true 0x10000000 4 none (by decide)).1 rfl (by decide)

namespace CdrWriter

theorem putChunk_littleEndian (u : CdrWriter) (a len : Nat) (bs : List Nat) :
    (u.putChunk a len bs).littleEndian = u.littleEndian := by
  simp only [putChunk]
  rw [align_littleEndian]

theorem putChunk_isCDR2 (u : CdrWriter) (a len : Nat) (bs : List Nat) :
    (u.putChunk a len bs).isCDR2 = u.isCDR2 := by
  simp only [putChunk]
  rw [align_isCDR2]

theorem putChunk_eightByteAlignment (u : CdrWriter) (a len : Nat) (bs : List Nat) :
    (u.putChunk a len bs).eightByteAlignment = u.eightByteAlignment := by
  unfold eightByteAlignment
  rw [putChunk_isCDR2]

/-- The slow element-by-element path, after each element has been encoded to
its stream-endian byte chunk: fold the shared aligned-write shape over the
chunks. -/
def writeChunksSlow (w : CdrWriter) (a len : Nat) (chunks : List (List Nat)) : CdrWriter :=
  chunks.foldl (fun acc bs => acc.putChunk a len bs) w

/-- Two writer states that produced the same output: same cursor, same
alignment origin, same bytes `[0, offset)`. -/
def SameOutput (s t : CdrWriter) : Prop :=
  s.offset = t.offset ∧ s.origin = t.origin ∧ s.data = t.data

theorem data_eq_of (s t : CdrWriter) (hoff : s.offset = t.offset)
    (hbuf : ∀ i, i < t.offset → s.buf i = t.buf i) : s.data = t.data := by
  unfold data
  rw [hoff]
  exact List.map_congr_left (fun i hi => hbuf i (List.mem_range.mp hi))

/-- Once the write position is aligned for the element width, the slow path is
pointwise the single flat store of the concatenated chunks. -/
theorem slow_eq_flat (a len : Nat) (chunks : List (List Nat)) :
    ∀ (s1 s2 : CdrWriter), s1.Valid → 0 < a → 0 < len → a ∣ len →
    (∀ bs ∈ chunks, bs.length = len) →
    s1.offset = s2.offset → s1.origin = s2.origin →
    (∀ i, i < s1.offset → s1.buf i = s2.buf i) →
    len ∣ (s1.offset - s1.origin) →
    (writeChunksSlow s1 a len chunks).offset = s2.offset + len * chunks.length ∧
    (writeChunksSlow s1 a len chunks).origin = s2.origin ∧
    (∀ i, i < s2.offset + len * chunks.length →
      (writeChunksSlow s1 a len chunks).buf i
        = storeBytes s2.buf s2.offset chunks.flatten i) := by
  induction chunks with
  | nil =>
    intro s1 s2 hv ha hlen hdvd hchunks hoff horig hbuf hal
    refine ⟨by simpa [writeChunksSlow] using hoff, by simpa [writeChunksSlow] using horig, ?_⟩
    intro i hi
    simp only [writeChunksSlow, List.foldl_nil, List.flatten_nil]
    rw [storeBytes_nil]
    refine hbuf i ?_
    simp only [List.length_nil, Nat.mul_zero, Nat.add_zero] at hi
    omega
  | cons bs rest ih =>
    intro s1 s2 hv ha hlen hdvd hchunks hoff horig hbuf hal
    have hbslen : bs.length = len := hchunks bs (by simp)
    have hpad0 : padOf s1.offset s1.origin a = 0 :=
      padOf_eq_zero _ _ _ (dvd_trans hdvd hal)
    obtain ⟨h1off, h1orig, _, _, _, h1cap, h1below, _, h1bs⟩ :=
      s1.putChunk_char a len bs hv.2
    rw [hpad0] at h1off h1cap h1bs
    simp only [Nat.add_zero] at h1off h1cap h1bs
    have h1valid : (s1.putChunk a len bs).Valid := by
      constructor
      · rw [h1off, h1orig]
        have := hv.1
        omega
      · omega
    have hstep : writeChunksSlow s1 a len (bs :: rest)
        = writeChunksSlow (s1.putChunk a len bs) a len rest := rfl
    have IH := ih (s1.putChunk a len bs)
      { s2 with
          buf := storeBytes s2.buf s2.offset bs
          offset := s2.offset + len }
      h1valid ha hlen hdvd (fun c hc => hchunks c (by simp [hc]))
      (by
        show (s1.putChunk a len bs).offset = s2.offset + len
        rw [h1off, hoff])
      (by
        show (s1.putChunk a len bs).origin = s2.origin
        rw [h1orig, horig])
      (by
        intro i hi
        rw [h1off] at hi
        show (s1.putChunk a len bs).buf i = storeBytes s2.buf s2.offset bs i
        by_cases hlow : i < s1.offset
        · rw [h1below i hlow, hbuf i hlow, storeBytes_of_lt _ _ _ _ (by omega)]
        · have hj := h1bs (i - s1.offset) (by omega)
          rw [show s1.offset + (i - s1.offset) = i from by omega] at hj
          rw [hj, storeBytes_of_mem _ _ _ _ (by omega) (by omega), hoff])
      (by
        rw [h1off, h1orig]
        rw [show s1.offset + len - s1.origin = (s1.offset - s1.origin) + len from by
          have := hv.1
          omega]
        exact dvd_add hal dvd_rfl)
    obtain ⟨IHoff, IHorig, IHbuf⟩ := IH
    refine ⟨?_, ?_, ?_⟩
    · rw [hstep, IHoff]
      show s2.offset + len + len * rest.length = s2.offset + len * (rest.length + 1)
      ring
    · rw [hstep, IHorig]
    · intro i hi
      rw [hstep]
      have hmul : len * (rest.length + 1) = len * rest.length + len := by ring
      have hi2 : i < s2.offset + len + len * rest.length := by
        simp only [List.length_cons] at hi
        omega
      rw [IHbuf i hi2]
      show storeBytes (storeBytes s2.buf s2.offset bs) (s2.offset + len) rest.flatten i
        = storeBytes s2.buf s2.offset (bs :: rest).flatten i
      rw [List.flatten_cons, storeBytes_append]
      rw [hbslen]

end CdrWriter

namespace CdrWriter

/-- When the padding the fast path writes (alignment to the element width)
coincides with the padding the first slow-path element writes (alignment to
the scalar alignment size), the two paths produce the same output. -/
theorem slow_fast_equiv (w : CdrWriter) (a len : Nat) (chunks : List (List Nat))
    (hv : w.Valid) (ha : 0 < a) (hlen : 0 < len) (hdvd : a ∣ len)
    (hchunks : ∀ bs ∈ chunks, bs.length = len) (hne : chunks ≠ [])
    (hpad : padOf w.offset w.origin a = padOf w.offset w.origin len) :
    SameOutput (writeChunksSlow w a len chunks) (w.fastStore len chunks) := by
  cases chunks with
  | nil => exact absurd rfl hne
  | cons bs rest =>
    have hbslen : bs.length = len := hchunks bs (by simp)
    obtain ⟨h1off, h1orig, _, _, _, h1cap, h1below, h1pad, h1bs⟩ :=
      w.putChunk_char a len bs hv.2
    have h1valid : (w.putChunk a len bs).Valid := by
      constructor
      · rw [h1off, h1orig]
        have := hv.1
        omega
      · omega
    have hAoff : (w.align len ((bs :: rest).length * len)).offset
        = w.offset + padOf w.offset w.origin len := w.align_offset _ _
    have hAorig : (w.align len ((bs :: rest).length * len)).origin = w.origin :=
      w.align_origin _ _
    have hAbelow : ∀ i, i < w.offset →
        (w.align len ((bs :: rest).length * len)).buf i = w.buf i :=
      fun i hi => w.align_buf_below _ _ i hv.2 hi
    have hApad : ∀ i, w.offset ≤ i → i < w.offset + padOf w.offset w.origin len →
        (w.align len ((bs :: rest).length * len)).buf i = 0 :=
      fun i h1 h2 => w.align_buf_pad _ _ i h1 h2
    have hcore := slow_eq_flat a len rest (w.putChunk a len bs)
      { w.align len ((bs :: rest).length * len) with
          buf := storeBytes (w.align len ((bs :: rest).length * len)).buf
            (w.align len ((bs :: rest).length * len)).offset bs
          offset := (w.align len ((bs :: rest).length * len)).offset + len }
      h1valid ha hlen hdvd (fun c hc => hchunks c (by simp [hc]))
      (by
        show (w.putChunk a len bs).offset
          = (w.align len ((bs :: rest).length * len)).offset + len
        rw [h1off, hAoff, hpad])
      (by
        show (w.putChunk a len bs).origin
          = (w.align len ((bs :: rest).length * len)).origin
        rw [h1orig, hAorig])
      (by
        intro i hi
        rw [h1off, hpad] at hi
        show (w.putChunk a len bs).buf i
          = storeBytes (w.align len ((bs :: rest).length * len)).buf
              (w.align len ((bs :: rest).length * len)).offset bs i
        by_cases hlow : i < w.offset
        · rw [h1below i hlow, storeBytes_of_lt _ _ _ _ (by rw [hAoff]; omega),
            hAbelow i hlow]
        · by_cases hmid : i < w.offset + padOf w.offset w.origin len
          · rw [h1pad i (by omega) (by rw [hpad]; omega),
              storeBytes_of_lt _ _ _ _ (by rw [hAoff]; omega)]
            rw [hApad i (by omega) hmid]
          · have hj := h1bs (i - (w.offset + padOf w.offset w.origin a)) (by
              rw [hbslen, hpad]
              omega)
            rw [show w.offset + padOf w.offset w.origin a +
                (i - (w.offset + padOf w.offset w.origin a)) = i from by
              rw [hpad]
              omega] at hj
            rw [hj, storeBytes_of_mem _ _ _ _ (by rw [hAoff]; omega)
              (by rw [hAoff, hbslen]; omega)]
            rw [hAoff, hpad])
      (by
        rw [h1off, h1orig, hpad]
        rw [show w.offset + padOf w.offset w.origin len + len - w.origin
            = (w.offset + padOf w.offset w.origin len - w.origin) + len from by
          have := hv.1
          omega]
        exact dvd_add (padOf_dvd _ _ _ hv.1 hlen) dvd_rfl)
    obtain ⟨hSoff, hSorig, hSbuf⟩ := hcore
    have hmul : ((bs :: rest).length : Nat) * len = len + len * rest.length := by
      simp only [List.length_cons]
      ring
    have hFoff : (w.fastStore len (bs :: rest)).offset
        = (w.align len ((bs :: rest).length * len)).offset + len + len * rest.length := by
      show (w.align len ((bs :: rest).length * len)).offset + (bs :: rest).length * len = _
      omega
    refine ⟨?_, ?_, ?_⟩
    · show (writeChunksSlow (w.putChunk a len bs) a len rest).offset = _
      rw [hSoff, hFoff]
    · show (writeChunksSlow (w.putChunk a len bs) a len rest).origin = _
      rw [hSorig]
      show _ = (w.align len ((bs :: rest).length * len)).origin
      rfl
    · refine data_eq_of _ _ ?_ ?_
      · show (writeChunksSlow (w.putChunk a len bs) a len rest).offset = _
        rw [hSoff, hFoff]
      · intro i hi
        rw [hFoff] at hi
        show (writeChunksSlow (w.putChunk a len bs) a len rest).buf i
          = storeBytes (w.align len ((bs :: rest).length * len)).buf
              (w.align len ((bs :: rest).length * len)).offset (bs :: rest).flatten i
        rw [hSbuf i hi]
        rw [List.flatten_cons, storeBytes_append, hbslen]

end CdrWriter

namespace CdrWriter

/-- The slow path of each typed-array write is a fold of one aligned scalar
write per element; since `putChunk` never changes the stream endianness or
the encapsulation version, the per-element chunks can all be computed from
the initial state. -/
theorem foldl_scalar_eq {α : Type} (A : CdrWriter → Nat) (len : Nat)
    (enc : α → Bool → List Nat) (f : CdrWriter → α → CdrWriter)
    (hf : ∀ u v, f u v = u.putChunk (A u) len (enc v u.littleEndian))
    (hA : ∀ (u : CdrWriter) (a' l : Nat) (bs : List Nat),
      A (u.putChunk a' l bs) = A u) :
    ∀ (value : List α) (u : CdrWriter),
      value.foldl f u
        = writeChunksSlow u (A u) len (value.map fun v => enc v u.littleEndian) := by
  intro value
  induction value with
  | nil => intro u; rfl
  | cons v rest ih =>
    intro u
    simp only [List.foldl_cons, List.map_cons]
    rw [hf u v, ih (u.putChunk (A u) len (enc v u.littleEndian))]
    rw [hA u (A u) len (enc v u.littleEndian), putChunk_littleEndian]
    rfl

/-- Instantiation of the slow/fast equivalence for one scalar type: the fold
of the scalar write equals the bulk copy whenever the first element's padding
agrees between the scalar alignment size and the element width. -/
theorem slow_fast_type {α : Type} (A : CdrWriter → Nat) (len : Nat)
    (enc : α → Bool → List Nat) (f : CdrWriter → α → CdrWriter)
    (hf : ∀ u v, f u v = u.putChunk (A u) len (enc v u.littleEndian))
    (hA : ∀ (u : CdrWriter) (a' l : Nat) (bs : List Nat),
      A (u.putChunk a' l bs) = A u)
    (henclen : ∀ v le, (enc v le).length = len)
    (w : CdrWriter) (vs : List α) (hv : w.Valid)
    (ha : 0 < A w) (hlen : 0 < len) (hdvd : A w ∣ len) (hn : 0 < vs.length)
    (hpad : padOf w.offset w.origin (A w) = padOf w.offset w.origin len) :
    SameOutput (vs.foldl f w)
      (w.fastStore len (vs.map fun v => enc v w.littleEndian)) := by
  rw [foldl_scalar_eq A len enc f hf hA vs w]
  refine slow_fast_equiv w (A w) len _ hv ha hlen hdvd ?_ ?_ hpad
  · intro bs hbs
    obtain ⟨v, _, rfl⟩ := List.mem_map.mp hbs
    exact henclen v w.littleEndian
  · intro h
    have h0 : (vs.map fun v => enc v w.littleEndian).length = 0 := by rw [h]; rfl
    rw [List.length_map] at h0
    omega

end CdrWriter

/-- C2: for every typed-array write (`int16Array` through `float64Array`)
whose fast-path precondition holds (the argument is a typed view of matching
width, the stream endianness equals the host endianness, and the element
count is at least `BUFFER_COPY_THRESHOLD`), the fast bulk-copy path produces
the same cursor, origin and bytes as the slow element-by-element path — for
the 16- and 32-bit types unconditionally, and for the 8-byte-wide types
(`int64Array`, `uint64Array`, `float64Array`) under the per-conjunct proviso
that, under an XCDR2 encapsulation, aligning to the slow path's 4-byte
boundary coincides with aligning to the fast path's 8-byte boundary at the
call site (in particular whenever `offset - origin` is a multiple of 8).
The original claim asserts the 64-bit XCDR2 case unconditionally;
`c2_counterexample` refutes that. -/
theorem c2_bulk_equiv (w : CdrWriter) (vs : List Int) (fs : List Nat)
    (hv : w.Valid)
    (hle : w.littleEndian = w.hostLittleEndian)
    (hvn : CdrWriter.BUFFER_COPY_THRESHOLD ≤ vs.length)
    (hfn : CdrWriter.BUFFER_COPY_THRESHOLD ≤ fs.length) :
    CdrWriter.SameOutput (vs.foldl CdrWriter.int16 w) (w.int16Array vs true false) ∧
    CdrWriter.SameOutput (vs.foldl CdrWriter.uint16 w) (w.uint16Array vs true false) ∧
    CdrWriter.SameOutput (vs.foldl CdrWriter.int32 w) (w.int32Array vs true false) ∧
    CdrWriter.SameOutput (vs.foldl CdrWriter.uint32 w) (w.uint32Array vs true false) ∧
    ((w.isCDR2 = true →
        CdrWriter.padOf w.offset w.origin 4 = CdrWriter.padOf w.offset w.origin 8) →
      CdrWriter.SameOutput (vs.foldl CdrWriter.int64 w) (w.int64Array vs true false)) ∧
    ((w.isCDR2 = true →
        CdrWriter.padOf w.offset w.origin 4 = CdrWriter.padOf w.offset w.origin 8) →
      CdrWriter.SameOutput (vs.foldl CdrWriter.uint64 w) (w.uint64Array vs true false)) ∧
    CdrWriter.SameOutput (fs.foldl CdrWriter.float32 w) (w.float32Array fs true false) ∧
    ((w.isCDR2 = true →
        CdrWriter.padOf w.offset w.origin 4 = CdrWriter.padOf w.offset w.origin 8) →
      CdrWriter.SameOutput (fs.foldl CdrWriter.float64 w) (w.float64Array fs true false)) := by
  have hvguard : ((w.littleEndian == w.hostLittleEndian)
      && decide (CdrWriter.BUFFER_COPY_THRESHOLD ≤ vs.length)) = true := by
    simp [hle, hvn]
  have hfguard : ((w.littleEndian == w.hostLittleEndian)
      && decide (CdrWriter.BUFFER_COPY_THRESHOLD ≤ fs.length)) = true := by
    simp [hle, hfn]
  have hvpos : 0 < vs.length := by
    have := hvn
    unfold CdrWriter.BUFFER_COPY_THRESHOLD at this
    omega
  have hfpos : 0 < fs.length := by
    have := hfn
    unfold CdrWriter.BUFFER_COPY_THRESHOLD at this
    omega
  have ha8 : 0 < w.eightByteAlignment := by
    unfold CdrWriter.eightByteAlignment
    split <;> norm_num
  have hdvd8 : w.eightByteAlignment ∣ 8 := by
    unfold CdrWriter.eightByteAlignment
    split <;> decide
  have hpad8of : (w.isCDR2 = true →
      CdrWriter.padOf w.offset w.origin 4 = CdrWriter.padOf w.offset w.origin 8) →
      CdrWriter.padOf w.offset w.origin w.eightByteAlignment
        = CdrWriter.padOf w.offset w.origin 8 := by
    intro hpad
    unfold CdrWriter.eightByteAlignment
    by_cases hc : w.isCDR2 = true
    · rw [if_pos hc]
      exact hpad hc
    · rw [if_neg hc]
  refine ⟨?_, ?_, ?_, ?_, ?_, ?_, ?_, ?_⟩
  · have hdisp : w.int16Array vs true false = w.int16ArrayFast vs := by
      show (if ((w.littleEndian == w.hostLittleEndian)
          && decide (CdrWriter.BUFFER_COPY_THRESHOLD ≤ vs.length)) = true
        then w.int16ArrayFast vs else vs.foldl CdrWriter.int16 w)
        = w.int16ArrayFast vs
      rw [if_pos hvguard]
    rw [hdisp]
    exact CdrWriter.slow_fast_type (fun _ => 2) 2
      (fun v le => encodeUInt 2 (toUnsigned 2 v) le) CdrWriter.int16
      (fun u v => rfl) (fun u a' l bs => rfl)
      (fun v le => encodeUInt_length 2 (toUnsigned 2 v) le)
      w vs hv (by norm_num) (by norm_num) dvd_rfl hvpos rfl
  · have hdisp : w.uint16Array vs true false = w.uint16ArrayFast vs := by
      show (if ((w.littleEndian == w.hostLittleEndian)
          && decide (CdrWriter.BUFFER_COPY_THRESHOLD ≤ vs.length)) = true
        then w.uint16ArrayFast vs else vs.foldl CdrWriter.uint16 w)
        = w.uint16ArrayFast vs
      rw [if_pos hvguard]
    rw [hdisp]
    exact CdrWriter.slow_fast_type (fun _ => 2) 2
      (fun v le => encodeUInt 2 (toUnsigned 2 v) le) CdrWriter.uint16
      (fun u v => rfl) (fun u a' l bs => rfl)
      (fun v le => encodeUInt_length 2 (toUnsigned 2 v) le)
      w vs hv (by norm_num) (by norm_num) dvd_rfl hvpos rfl
  · have hdisp : w.int32Array vs true false = w.int32ArrayFast vs := by
      show (if ((w.littleEndian == w.hostLittleEndian)
          && decide (CdrWriter.BUFFER_COPY_THRESHOLD ≤ vs.length)) = true
        then w.int32ArrayFast vs else vs.foldl CdrWriter.int32 w)
        = w.int32ArrayFast vs
      rw [if_pos hvguard]
    rw [hdisp]
    exact CdrWriter.slow_fast_type (fun _ => 4) 4
      (fun v le => encodeUInt 4 (toUnsigned 4 v) le) CdrWriter.int32
      (fun u v => rfl) (fun u a' l bs => rfl)
      (fun v le => encodeUInt_length 4 (toUnsigned 4 v) le)
      w vs hv (by norm_num) (by norm_num) dvd_rfl hvpos rfl
  · have hdisp : w.uint32Array vs true false = w.uint32ArrayFast vs := by
      show (if ((w.littleEndian == w.hostLittleEndian)
          && decide (CdrWriter.BUFFER_COPY_THRESHOLD ≤ vs.length)) = true
        then w.uint32ArrayFast vs else vs.foldl CdrWriter.uint32 w)
        = w.uint32ArrayFast vs
      rw [if_pos hvguard]
    rw [hdisp]
    exact CdrWriter.slow_fast_type (fun _ => 4) 4
      (fun v le => encodeUInt 4 (toUnsigned 4 v) le) CdrWriter.uint32
      (fun u v => rfl) (fun u a' l bs => rfl)
      (fun v le => encodeUInt_length 4 (toUnsigned 4 v) le)
      w vs hv (by norm_num) (by norm_num) dvd_rfl hvpos rfl
  · intro hpad
    have hdisp : w.int64Array vs true false = w.int64ArrayFast vs := by
      show (if ((w.littleEndian == w.hostLittleEndian)
          && decide (CdrWriter.BUFFER_COPY_THRESHOLD ≤ vs.length)) = true
        then w.int64ArrayFast vs else vs.foldl CdrWriter.int64 w)
        = w.int64ArrayFast vs
      rw [if_pos hvguard]
    rw [hdisp]
    exact CdrWriter.slow_fast_type CdrWriter.eightByteAlignment 8
      (fun v le => encodeUInt 8 (toUnsigned 8 v) le) CdrWriter.int64
      (fun u v => rfl)
      (fun u a' l bs => CdrWriter.putChunk_eightByteAlignment u a' l bs)
      (fun v le => encodeUInt_length 8 (toUnsigned 8 v) le)
      w vs hv ha8 (by norm_num) hdvd8 hvpos (hpad8of hpad)
  · intro hpad
    have hdisp : w.uint64Array vs true false = w.uint64ArrayFast vs := by
      show (if ((w.littleEndian == w.hostLittleEndian)
          && decide (CdrWriter.BUFFER_COPY_THRESHOLD ≤ vs.length)) = true
        then w.uint64ArrayFast vs else vs.foldl CdrWriter.uint64 w)
        = w.uint64ArrayFast vs
      rw [if_pos hvguard]
    rw [hdisp]
    exact CdrWriter.slow_fast_type CdrWriter.eightByteAlignment 8
      (fun v le => encodeUInt 8 (toUnsigned 8 v) le) CdrWriter.uint64
      (fun u v => rfl)
      (fun u a' l bs => CdrWriter.putChunk_eightByteAlignment u a' l bs)
      (fun v le => encodeUInt_length 8 (toUnsigned 8 v) le)
      w vs hv ha8 (by norm_num) hdvd8 hvpos (hpad8of hpad)
  · have hdisp : w.float32Array fs true false = w.float32ArrayFast fs := by
      show (if ((w.littleEndian == w.hostLittleEndian)
          && decide (CdrWriter.BUFFER_COPY_THRESHOLD ≤ fs.length)) = true
        then w.float32ArrayFast fs else fs.foldl CdrWriter.float32 w)
        = w.float32ArrayFast fs
      rw [if_pos hfguard]
    rw [hdisp]
    exact CdrWriter.slow_fast_type (fun _ => 4) 4
      (fun b le => encodeUInt 4 b le) CdrWriter.float32
      (fun u v => rfl) (fun u a' l bs => rfl)
      (fun b le => encodeUInt_length 4 b le)
      w fs hv (by norm_num) (by norm_num) dvd_rfl hfpos rfl
  · intro hpad
    have hdisp : w.float64Array fs true false = w.float64ArrayFast fs := by
      show (if ((w.littleEndian == w.hostLittleEndian)
          && decide (CdrWriter.BUFFER_COPY_THRESHOLD ≤ fs.length)) = true
        then w.float64ArrayFast fs else fs.foldl CdrWriter.float64 w)
        = w.float64ArrayFast fs
      rw [if_pos hfguard]
    rw [hdisp]
    exact CdrWriter.slow_fast_type CdrWriter.eightByteAlignment 8
      (fun b le => encodeUInt 8 b le) CdrWriter.float64
      (fun u v => rfl)
      (fun u a' l bs => CdrWriter.putChunk_eightByteAlignment u a' l bs)
      (fun b le => encodeUInt_length 8 b le)
      w fs hv ha8 (by norm_num) hdvd8 hfpos (hpad8of hpad)

/-- C2 counterexample: the original claim's 64-bit XCDR2 case fails.  After a
`uint32` on a fresh CDR2_LE writer, `offset - origin = 4`; `int64Array` with
ten elements takes the fast path (typed view, matching endianness, count at
threshold) and aligns to 8, inserting 4 zero padding bytes, while the slow
path aligns each element to 4 and inserts none, so the outputs differ. -/
theorem c2_counterexample :
    ((wCDR2LE.uint32 0).int64Array (List.replicate 10 0) true false).data
      ≠ ((List.replicate 10 (0 : Int)).foldl CdrWriter.int64
          (wCDR2LE.uint32 0)).data := by
  decide

/-- Witness for C2 at concrete inputs with ten zero elements: the 16-bit
conjunct applies unconditionally even on a CDR2_LE writer whose
`offset - origin` is 4 mod 8 (after one `uint32`, exactly the state where the
64-bit paths diverge), and the `int64` conjunct applies on the default CDR_LE
writer, where its alignment-coincidence proviso holds. -/
theorem c2_witness :
    (wCDR2LE.uint32 0).Valid ∧
    (wCDR2LE.uint32 0).littleEndian = (wCDR2LE.uint32 0).hostLittleEndian ∧
    CdrWriter.BUFFER_COPY_THRESHOLD ≤ (List.replicate 10 (0 : Int)).length ∧
    CdrWriter.SameOutput
      ((List.replicate 10 (0 : Int)).foldl CdrWriter.int16 (wCDR2LE.uint32 0))
      ((wCDR2LE.uint32 0).int16Array (List.replicate 10 0) true false) ∧
    CdrWriter.SameOutput
      ((List.replicate 10 (0 : Int)).foldl CdrWriter.int64 wCDRLE)
      (wCDRLE.int64Array (List.replicate 10 0) true false) :=
  ⟨by decide, by decide, by decide,
    (c2_bulk_equiv (wCDR2LE.uint32 0) (List.replicate 10 0) (List.replicate 10 0)
      (by decide) (by decide) (by decide) (by decide)).1,
    (c2_bulk_equiv wCDRLE (List.replicate 10 0) (List.replicate 10 0)
      (by decide) (by decide) (by decide) (by decide)).2.2.2.2.1 (by decide)⟩
